import Mathlib

/-!
Verification of the openf1 repository against its natural-language
specification.

This file gives a shallow embedding, in Lean 4, of the parts of the openf1
code base that the checked claims are about:

* the query-parameter date expansion of
  `src/openf1/services/query_api/query_params.py`;
* the result re-sorting helper of `src/openf1/services/query_api/sort.py`;
* the MongoDB read pipeline of `get_documents` in `src/openf1/util/db.py`;
* the laps stream processor of
  `src/openf1/services/ingestor_livetiming/core/processing/collections/laps.py`;
* the stints stream processor of
  `src/openf1/services/ingestor_livetiming/core/processing/collections/stints.py`;
* the document comparator and the flush sort of
  `src/openf1/services/ingestor_livetiming/core/objects.py` and
  `src/openf1/services/ingestor_livetiming/core/processing/main.py`.

Modelling conventions, used throughout:

* Python `datetime` instants and `timedelta` differences are modelled as
  integers counting milliseconds (`timedelta(seconds=10)` becomes `10000`,
  `timedelta(days=1)` becomes `86400000`).
* Python `float` durations are modelled as rationals; `round(x, 3)` is
  modelled exactly as round-half-to-even at three decimals (`pyRound3`).
  Binary floating-point representation artifacts are out of scope.
* A Python value that may be `None` is an `Option`; a code path that raises
  an exception is an `Option`/flagged result (`none` / `false` = raised).
* Python `dict`s keyed by identifiers are modelled as association lists (in
  insertion order) or, where no code iterates over them, as total functions
  with the defaultdict default.
-/

namespace OpenF1

/-! ## Query parameters (`query_params.py`) -/

/-- The comparison operators allowed in the URL
(`ComparisonOperator` in `query_params.py`). -/
inductive CompOp where
  | eq
  | lte
  | gte
  | lt
  | gt
deriving DecidableEq, Repr

/-- A parsed query-parameter value, the result of `cast` in
`type_casting.py`.  A datetime value carries the result of
`_has_time_info` on the raw string (the double `dateutil` parse of the
source is abstracted as this boolean attribute of the parsed value). -/
inductive CastV where
  | dtime (ms : Int) (hasTimeInfo : Bool)
  | num (z : Int)
  | str (s : String)
  | bool (b : Bool)
deriving DecidableEq, Repr

/-- `QueryParam` from `query_params.py`: a single filter such as
`lap_start>=3`. -/
structure QueryParam where
  field : String
  op : CompOp
  value : CastV
deriving DecidableEq, Repr

/-- Adding `timedelta(days=1)` to a query-parameter value.  Only ever
applied to datetime values in the source (`_adjust_time_param`). -/
def addOneDay : CastV → CastV
  | .dtime ms h => .dtime (ms + 86400000) h
  | v => v

/-- `_adjust_time_param` from `query_params.py`: rewrites a datetime
parameter whose value has no time-of-day component. -/
def adjust_time_param (p : QueryParam) : List QueryParam :=
  match p.op with
  | .gt => [⟨p.field, .gte, addOneDay p.value⟩]
  | .lt => [p]
  | .eq => [⟨p.field, .gte, p.value⟩, ⟨p.field, .lt, addOneDay p.value⟩]
  | .gte => [⟨p.field, .gte, p.value⟩]
  | .lte => [⟨p.field, .lt, addOneDay p.value⟩]

/-- The tail of `_str_to_query_params` from `query_params.py`, after the
operator split and the `cast` call: a datetime value without time info is
expanded by `adjust_time_param`, every other parameter passes through. -/
def str_to_query_params (p : QueryParam) : List QueryParam :=
  match p.value with
  | .dtime _ false => adjust_time_param p
  | _ => [p]

/-! ## Result re-sorting (`sort.py`) -/

/-- The sort-key priority list `_SORT_KEYS` of
`src/openf1/services/query_api/sort.py` (verbatim, in source order). -/
def sortKeys : List String :=
  ["date", "date_start", "meeting_key", "session_key", "lap_start",
   "lap_number", "lap_end", "date_end", "stint_number", "driver_number"]

/-- A query result record: an association list from field name to value,
where a present field may still hold `None` (`none`).  Field values that
participate in sorting are modelled as integers. -/
def Rec : Type := List (String × Option Int)

instance : DecidableEq Rec := by
  unfold Rec
  infer_instance

/-- Field access: `none` = the key is missing, `some none` = the key is
present with value `None`, `some (some v)` = present with value `v`. -/
def getField (r : Rec) (k : String) : Option (Option Int) :=
  (r.find? (fun e => e.1 == k)).map (fun e => e.2)

/-- `key in r and r[key] is not None` from `sort_results`. -/
def hasValue (r : Rec) (k : String) : Bool :=
  match getField r k with
  | some (some _) => true
  | _ => false

/-- `selected_sort_keys` from `sort_results`: the keys of `sortKeys` that
are present with a non-`None` value in every record. -/
def selectedSortKeys (rs : List Rec) : List String :=
  sortKeys.filter (fun k => rs.all (fun r => hasValue r k))

/-- The sort key tuple `tuple(r[key] for key in selected_sort_keys)`.
The default `0` is unreachable: every selected key is present with a
value in every record. -/
def tupleOf (keys : List String) (r : Rec) : List Int :=
  keys.map (fun k => ((getField r k).bind id).getD 0)

/-- Lexicographic `≤` over lists, parameterized by a strict comparison,
as Python compares tuples.  A strict prefix is smaller. -/
def lexLeBy (lt : α → α → Bool) : List α → List α → Bool
  | [], _ => true
  | _ :: _, [] => false
  | a :: as, b :: bs =>
    if lt a b then true
    else if lt b a then false
    else lexLeBy lt as bs

/-- Python `<` on ints. -/
def intLt (a b : Int) : Bool := a < b

/-- The comparison `sorted(..., key=lambda r: tuple(...))` uses: `≤` on
the selected-keys tuples. -/
def recLe (keys : List String) (a b : Rec) : Prop :=
  lexLeBy intLt (tupleOf keys a) (tupleOf keys b) = true

instance (keys : List String) : DecidableRel (recLe keys) := by
  intro a b
  unfold recLe
  infer_instance

/-- `sort_results` from `sort.py`.  Python `sorted` is modelled by
`List.insertionSort`, a stable sort agreeing with it on every consistent
comparison key. -/
def sort_results (rs : List Rec) : List Rec :=
  if rs.length ≤ 1 then rs
  else
    let sel := selectedSortKeys rs
    if sel.isEmpty then rs
    else rs.insertionSort (recLe sel)

instance (keys : List String) : IsTotal Rec (recLe keys) :=
  ⟨fun a b => by
    unfold recLe
    generalize tupleOf keys a = xs
    generalize tupleOf keys b = ys
    induction xs generalizing ys with
    | nil => left; rfl
    | cons x xs ih =>
      cases ys with
      | nil => right; rfl
      | cons y ys2 =>
        by_cases h1 : intLt x y = true
        · left; simp [lexLeBy, h1]
        · by_cases h2 : intLt y x = true
          · right; simp [lexLeBy, h2]
          · rcases ih ys2 with h | h
            · left; simp [lexLeBy, h1, h2, h]
            · right; simp [lexLeBy, h1, h2, h]⟩

instance (keys : List String) : IsTrans Rec (recLe keys) :=
  ⟨fun a b c hab hbc => by
    unfold recLe at hab hbc ⊢
    revert hab hbc
    generalize tupleOf keys a = xs
    generalize tupleOf keys b = ys
    generalize tupleOf keys c = zs
    induction xs generalizing ys zs with
    | nil => intro _ _; rfl
    | cons x xs ih =>
      intro hxy hyz
      cases ys with
      | nil => simp [lexLeBy] at hxy
      | cons y ys2 =>
        cases zs with
        | nil => simp [lexLeBy] at hyz
        | cons z zs2 =>
          simp only [lexLeBy, intLt, decide_eq_true_eq] at hxy hyz ⊢
          rcases lt_trichotomy x y with hab2 | hab2 | hab2
          · rcases lt_trichotomy y z with hbc2 | hbc2 | hbc2
            · have : x < z := lt_trans hab2 hbc2
              simp [this]
            · subst hbc2
              simp [hab2]
            · rw [if_neg (by omega), if_pos hbc2] at hyz
              exact absurd hyz (by simp)
          · subst hab2
            rcases lt_trichotomy x z with hac | hac | hac
            · simp [hac]
            · subst hac
              rw [if_neg (by omega), if_neg (by omega)] at hxy hyz ⊢
              exact ih ys2 zs2 hxy hyz
            · rw [if_neg (by omega), if_pos hac] at hyz
              exact absurd hyz (by simp)
          · rw [if_neg (by omega), if_pos hab2] at hxy
            exact absurd hxy (by simp)⟩

/-- The sort-key priority list as the claim states it (written from the
spec words, for comparison with `sortKeys` taken from the source): it
puts `date_start` before `date` and includes `position`. -/
def claimSortKeys : List String :=
  ["date_start", "date", "meeting_key", "session_key", "position",
   "lap_start", "lap_number", "lap_end", "date_end", "stint_number",
   "driver_number"]

/-- `sort_results` as the claim describes it (same algorithm, but with
the key priority list of the claim).  Written from the spec words, for
comparison with the source definition. -/
def claim_sort_results (rs : List Rec) : List Rec :=
  if rs.length ≤ 1 then rs
  else
    let sel := claimSortKeys.filter (fun k => rs.all (fun r => hasValue r k))
    if sel.isEmpty then rs
    else rs.insertionSort (recLe sel)

/-- A record with `date = 1`, `date_start = 2`. -/
def recA : Rec := [("date", some 1), ("date_start", some 2)]

/-- A record with `date = 2`, `date_start = 1`. -/
def recB : Rec := [("date", some 2), ("date_start", some 1)]

/-! ## The read pipeline of `get_documents` (`util/db.py`) -/

/-- A stored MongoDB document, with the reserved fields `_key` and `_id`
and the fields named by `_SORT_KEYS` in `util/db.py`
(`date_start, meeting_key, session_key, position_current`).  Other payload
fields play no role in the pipeline and are omitted. -/
structure StoredDoc where
  key : String
  id : Int
  date_start : Option Int
  meeting_key : Option Int
  session_key : Option Int
  position_current : Option Int
deriving DecidableEq, Repr

/-- The order of the pipeline stage `sort _id: -1`: descending by `_id`. -/
def idDesc (a b : StoredDoc) : Prop := b.id ≤ a.id

instance : DecidableRel idDesc := by
  intro a b
  unfold idDesc
  infer_instance

instance : IsTotal StoredDoc idDesc :=
  ⟨fun a b => le_total b.id a.id⟩

instance : IsTrans StoredDoc idDesc :=
  ⟨fun _ _ _ hab hbc => le_trans hbc hab⟩

/-- The `group by _key, keep the first document` stage
(`group: {_id: "$_key", document: {$first: "$$ROOT"}}` followed by
`replaceRoot`): keeps the first occurrence of each `_key` in pipeline
order. -/
def dedupFirstAux : List String → List StoredDoc → List StoredDoc
  | _, [] => []
  | seen, d :: ds =>
    if d.key ∈ seen then dedupFirstAux seen ds
    else d :: dedupFirstAux (d.key :: seen) ds

/-- Group by `_key` keeping the first version in pipeline order. -/
def dedup_by_key (docs : List StoredDoc) : List StoredDoc :=
  dedupFirstAux [] docs

/-- MongoDB ascending comparison on a possibly-missing field: a missing
or null value sorts before every number. -/
def optLt : Option Int → Option Int → Bool
  | none, none => false
  | none, some _ => true
  | some _, none => false
  | some x, some y => decide (x < y)

/-- The compound sort key of the final pipeline stage
`sort {key: 1 for key in _SORT_KEYS}` with
`_SORT_KEYS = [date_start, meeting_key, session_key, position_current,
_id]`. -/
def mongoKeyTuple (d : StoredDoc) : List (Option Int) :=
  [d.date_start, d.meeting_key, d.session_key, d.position_current, some d.id]

/-- The final ascending compound sort order. -/
def mongoLe (a b : StoredDoc) : Prop :=
  lexLeBy optLt (mongoKeyTuple a) (mongoKeyTuple b) = true

instance : DecidableRel mongoLe := by
  intro a b
  unfold mongoLe
  infer_instance

/-- `get_documents` from `util/db.py`: apply the user filter predicate,
sort by `_id` descending, group by `_key` keeping the first version,
re-sort ascending by `_SORT_KEYS`.  The pipeline is the same for every
collection; `collection_name` only selects which stored list is read, so
it is unused here. -/
def get_documents (collection_name : String) (pred : StoredDoc → Bool)
    (stored : List StoredDoc) : List StoredDoc :=
  let _ := collection_name
  ((stored.filter pred).insertionSort idDesc |> dedup_by_key).insertionSort mongoLe

/-- The cleaned response shape: `get_documents` strips every field whose
name starts with an underscore (`_key` and `_id`). -/
structure CleanDoc where
  date_start : Option Int
  meeting_key : Option Int
  session_key : Option Int
  position_current : Option Int
deriving DecidableEq, Repr

/-- The final cleaning loop of `get_documents`. -/
def clean_results (docs : List StoredDoc) : List CleanDoc :=
  docs.map (fun d => ⟨d.date_start, d.meeting_key, d.session_key, d.position_current⟩)

/-! ## The laps processor (`collections/laps.py`) -/

/-- The `Lap` document.  Timepoints are integer milliseconds, float
durations are rationals, segment statuses are integers. -/
structure Lap where
  meeting_key : Int
  session_key : Int
  driver_number : Int
  lap_number : Int
  date_start : Option Int := none
  duration_sector_1 : Option Rat := none
  duration_sector_2 : Option Rat := none
  duration_sector_3 : Option Rat := none
  i1_speed : Option Int := none
  i2_speed : Option Int := none
  is_pit_out_lap : Bool := false
  lap_duration : Option Rat := none
  segments_sector_1 : Option (List (Option Int)) := none
  segments_sector_2 : Option (List (Option Int)) := none
  segments_sector_3 : Option (List (Option Int)) := none
  st_speed : Option Int := none
deriving DecidableEq, Repr

/-- Python truthiness of an optional float: `None` and `0.0` are falsy. -/
def pyTruthy : Option Rat → Bool
  | none => false
  | some q => decide (q ≠ 0)

/-- Round-half-to-even to an integer, as Python `round` on an exact
value. -/
def roundHalfEven (x : Rat) : Int :=
  let f := ⌊x⌋
  let r := x - f
  if r < 1 / 2 then f
  else if 1 / 2 < r then f + 1
  else if f % 2 = 0 then f
  else f + 1

/-- Python `round(x, 3)` on an exact value. -/
def pyRound3 (q : Rat) : Rat := (roundHalfEven (1000 * q) : Rat) / 1000

/-- `_infer_missing_lap_duration` from `laps.py`:
`if not lap.lap_duration and lap.duration_sector_1 and
lap.duration_sector_2 and lap.duration_sector_3` — Python truthiness, so
a sector value of `0.0` blocks the inference.  The `getD 0` defaults are
unreachable: truthiness guarantees the sectors are set. -/
def infer_missing_lap_duration (lap : Lap) : Lap :=
  if !pyTruthy lap.lap_duration && pyTruthy lap.duration_sector_1 &&
      pyTruthy lap.duration_sector_2 && pyTruthy lap.duration_sector_3 then
    { lap with
      lap_duration := some (pyRound3 (lap.duration_sector_1.getD 0 +
        lap.duration_sector_2.getD 0 + lap.duration_sector_3.getD 0)) }
  else lap

/-- The collection-level fields of `LapsCollection` used by the update
path. -/
structure LapsCtx where
  meeting_key : Int
  session_key : Int
  is_session_a_race : Option Bool
  chequered_flag_date : Option Int

/-- The per-driver slice of `LapsCollection` state: the ordered list
`self.laps[driver_number]` and the `lap_number`s of the laps in
`self.updated_laps` belonging to this driver. -/
structure DriverLaps where
  laps : List Lap
  updated : List Int

/-- `_add_lap` constructs this fresh lap. -/
def mkNewLap (ctx : LapsCtx) (drv : Int) (n : Int) : Lap :=
  { meeting_key := ctx.meeting_key, session_key := ctx.session_key,
    driver_number := drv, lap_number := n }

/-- `_get_current_lap` from `laps.py`, for one driver: ensures a first
lap exists, then selects the lap index the update targets — the previous
lap when an end-of-lap update arrives within 10 s of the newest lap's
`date_start`, or `none` (skip) when the driver has fewer than two laps in
that situation. -/
def get_current_lap (ctx : LapsCtx) (st : DriverLaps) (drv : Int)
    (timepoint : Int) (is_end_of_lap : Bool) : DriverLaps × Option Nat :=
  let laps := if st.laps.isEmpty then [mkNewLap ctx drv 1] else st.laps
  let st1 : DriverLaps := { st with laps := laps }
  match laps.getLast? with
  | none => (st1, none)
  | some cur =>
    let isLate := is_end_of_lap &&
      (match cur.date_start with
       | some d => decide (timepoint - d < 10000)
       | none => false)
    if isLate then
      if laps.length < 2 then (st1, none)
      else (st1, some (laps.length - 2))
    else (st1, some (laps.length - 1))

/-- The discard test inside `_update_lap`: during a race, a lap starting
after the chequered flag is not marked as updated. -/
def raceDiscard (ctx : LapsCtx) (lap : Lap) : Bool :=
  match ctx.is_session_a_race, ctx.chequered_flag_date, lap.date_start with
  | some true, some c, some ds => decide (c < ds)
  | _, _, _ => false

/-- Set-insertion into the updated marks. -/
def insertMark (l : List Int) (n : Int) : List Int :=
  if n ∈ l then l else l ++ [n]

/-- `_update_lap` from `laps.py`, generic over the updated property
(`get`/`set` mirror `getattr`/`setattr`; `isDurationSector` mirrors
`property.startswith("duration_sector_")`). -/
def update_lap {α : Type} [DecidableEq α] (ctx : LapsCtx)
    (get : Lap → Option α) (set : Lap → Option α → Lap)
    (isDurationSector : Bool) (st : DriverLaps) (drv : Int) (value : α)
    (is_end_of_lap : Bool) (timepoint : Int) : DriverLaps :=
  match get_current_lap ctx st drv timepoint is_end_of_lap with
  | (st1, none) => st1
  | (st1, some i) =>
    match st1.laps[i]? with
    | none => st1
    | some lap =>
      if some value ≠ get lap then
        let lap1 := set lap (some value)
        let lap2 := if isDurationSector then infer_missing_lap_duration lap1
          else lap1
        let laps2 := st1.laps.set i lap2
        if raceDiscard ctx lap2 then { st1 with laps := laps2 }
        else { laps := laps2, updated := insertMark st1.updated lap2.lap_number }
      else st1

/-- The sector-duration update of `process_message`
(`property = duration_sector_n`, `is_end_of_lap = sector_number > 1`).
Sector numbers other than 1..3 never occur (upstream keys are 0..2). -/
def update_duration_sector (ctx : LapsCtx) (st : DriverLaps) (drv : Int)
    (sector : Nat) (v : Rat) (t : Int) : DriverLaps :=
  let isEnd := decide (sector > 1)
  match sector with
  | 1 => update_lap ctx (fun l => l.duration_sector_1)
      (fun l x => { l with duration_sector_1 := x }) true st drv v isEnd t
  | 2 => update_lap ctx (fun l => l.duration_sector_2)
      (fun l x => { l with duration_sector_2 := x }) true st drv v isEnd t
  | 3 => update_lap ctx (fun l => l.duration_sector_3)
      (fun l x => { l with duration_sector_3 := x }) true st drv v isEnd t
  | _ => st

/-- The `LastLapTime` update of `process_message`
(`property = lap_duration`, `is_end_of_lap = True`). -/
def update_lap_duration (ctx : LapsCtx) (st : DriverLaps) (drv : Int)
    (v : Rat) (t : Int) : DriverLaps :=
  update_lap ctx (fun l => l.lap_duration)
    (fun l x => { l with lap_duration := x }) false st drv v true t

/-- `getattr(lap, "segments_sector_n")`. -/
def segments_get (lap : Lap) (sector : Nat) : Option (List (Option Int)) :=
  match sector with
  | 1 => lap.segments_sector_1
  | 2 => lap.segments_sector_2
  | 3 => lap.segments_sector_3
  | _ => none

/-- `setattr(lap, "segments_sector_n", v)`. -/
def segments_set (lap : Lap) (sector : Nat) (v : Option (List (Option Int))) :
    Lap :=
  match sector with
  | 1 => { lap with segments_sector_1 := v }
  | 2 => { lap with segments_sector_2 := v }
  | 3 => { lap with segments_sector_3 := v }
  | _ => lap

/-- Grow a segment list with `None` up to index `m` and write the status
there (`while segment_number >= len: append(None); [m] = status`). -/
def growSet (l : List (Option Int)) (m : Nat) (status : Option Int) :
    List (Option Int) :=
  (l ++ List.replicate (m + 1 - l.length) none).set m status

/-- `_add_segment_status` from `laps.py`.  When the lap already holds a
segment list, the Python code mutates that list in place through the
`getattr` alias, so the subsequent `_update_lap` call compares the value
with itself and records nothing; when the list was `None`, `_update_lap`
performs the write and the update marking. -/
def add_segment_status (ctx : LapsCtx) (st : DriverLaps) (drv : Int)
    (sector : Nat) (m : Nat) (status : Option Int) (t : Int) : DriverLaps :=
  let isEnd := decide (sector > 1)
  match get_current_lap ctx st drv t isEnd with
  | (st1, none) => st1
  | (st1, some i) =>
    match st1.laps[i]? with
    | none => st1
    | some lap =>
      match segments_get lap sector with
      | some old =>
        { st1 with
          laps := st1.laps.set i (segments_set lap sector
            (some (growSet old m status))) }
      | none =>
        update_lap ctx (fun l => segments_get l sector)
          (fun l x => segments_set l sector x) false st1 drv
          (growSet [] m status) isEnd t

/-- A lap whose sector 1 is set to `0.0`, sectors 2 and 3 to `30.0`, and
whose `lap_duration` is unset. -/
def c4Lap : Lap :=
  { meeting_key := 1219, session_key := 9161, driver_number := 63,
    lap_number := 5, duration_sector_1 := some 0,
    duration_sector_2 := some 30, duration_sector_3 := some 30 }

/-- The race-start lap of the C5 witness scenario (lap 7, started at
`T = 0`). -/
def lap7w : Lap :=
  { meeting_key := 1219, session_key := 9161, driver_number := 55,
    lap_number := 7, date_start := some 0 }

/-- The newest lap of the C5 witness scenario (lap 8, started at
`T + 80 s`). -/
def lap8w : Lap :=
  { meeting_key := 1219, session_key := 9161, driver_number := 55,
    lap_number := 8, date_start := some 80000 }

/-- The driver state of the C5 witness scenario: laps 7 and 8 recorded. -/
def st5w : DriverLaps := { laps := [lap7w, lap8w], updated := [] }

/-- The collection context of the C5 witness scenario (a race, no
chequered flag yet). -/
def ctx5w : LapsCtx :=
  { meeting_key := 1219, session_key := 9161,
    is_session_a_race := some true, chequered_flag_date := none }

/-! ## The document comparator and the flush sort
(`core/objects.py`, `core/processing/main.py`) -/

/-- A `unique_key` tuple component: an integer (numbers, keys, datetimes
as milliseconds), a string, or `None`. -/
inductive PyVal where
  | pint (z : Int)
  | pstr (s : String)
  | pnone
deriving DecidableEq, Repr

/-- Python `<` on strings: lexicographic by code point. -/
def charListLt : List Char → List Char → Bool
  | [], [] => false
  | [], _ :: _ => true
  | _ :: _, [] => false
  | a :: as, b :: bs =>
    if a.toNat < b.toNat then true
    else if b.toNat < a.toNat then false
    else charListLt as bs

/-- Python `<` on strings. -/
def pyStrLt (a b : String) : Bool := charListLt a.data b.data

/-- The attempted Python comparison `e_self < e_other`: `some r` when
the pair is comparable, `none` when it raises `TypeError` (a `None`
operand or mismatched types). -/
def pyCmpLt : PyVal → PyVal → Option Bool
  | .pint x, .pint y => some (decide (x < y))
  | .pstr x, .pstr y => some (pyStrLt x y)
  | _, _ => none

/-- `Document.__lt__` from `core/objects.py`, on the zipped `unique_key`
tuples: at the first component pair, `try: return e_self < e_other`; on
`TypeError` continue with the next pair; `False` when the loop ends. -/
def document_lt : List PyVal → List PyVal → Bool
  | [], _ => false
  | _ :: _, [] => false
  | a :: as, b :: bs =>
    match pyCmpLt a b with
    | some r => r
    | none => document_lt as bs

/-- A buffered document as the flush sort sees it: its `unique_key`. -/
structure FlushDoc where
  u_key : List PyVal
deriving DecidableEq, Repr

/-- `Document.__lt__` lifted to documents. -/
def doc_lt (a b : FlushDoc) : Bool := document_lt a.u_key b.u_key

/-- Stable insertion into a sorted prefix: the new element goes before
the first element it compares less than. -/
def py_insert (lt : α → α → Bool) (x : α) : List α → List α
  | [] => [x]
  | y :: ys => if lt x y then x :: y :: ys else y :: py_insert lt x ys

/-- Python `sorted` with only `__lt__`, modelled as the stable insertion
sort (it agrees with CPython exactly on lists of length two, the size the
counterexample uses, and on every consistent comparator). -/
def py_sorted (lt : α → α → Bool) (l : List α) : List α :=
  l.foldl (fun acc x => py_insert lt x acc) []

/-- The per-collection flush `sorted(list(docs_buf[col].values()))` of
`process_messages` in `core/processing/main.py`. -/
def flush_sorted (ds : List FlushDoc) : List FlushDoc :=
  py_sorted doc_lt ds

/-- The comparator as the claim states it (written from the spec words,
for comparison with `document_lt`): lexicographic — an incomparable pair
is treated as equal and passes to the next component, and so does an
equal comparable pair. -/
def claimLexLt : List PyVal → List PyVal → Bool
  | [], [] => false
  | [], _ :: _ => true
  | _ :: _, [] => false
  | a :: as, b :: bs =>
    match pyCmpLt a b with
    | none => claimLexLt as bs
    | some true => true
    | some false =>
      if pyCmpLt b a = some true then false else claimLexLt as bs

/-! ## The stints processor (`collections/stints.py`) -/

/-- The `Stint` document.  `date_start_last_lap` models the private
`_date_start_last_lap` field. -/
structure Stint where
  meeting_key : Int
  session_key : Int
  stint_number : Int
  driver_number : Int
  lap_start : Option Int := none
  lap_end : Option Int := none
  compound : Option String := none
  tyre_age_at_start : Option Int := none
  date_start_last_lap : Option Int := none
deriving DecidableEq, Repr

/-- `self.stints[driver_number]`: the per-driver dict
`stint_number -> Stint`, in insertion order. -/
abbrev DriverStints : Type := List (Int × Stint)

/-- The stint numbers present for the driver. -/
def keysOf (ds : DriverStints) : List Int := ds.map Prod.fst

/-- Dict lookup `self.stints[driver][n]`. -/
def stintAt (ds : DriverStints) (n : Int) : Option Stint :=
  (ds.find? (fun e => e.1 == n)).map Prod.snd

/-- Dict value assignment for an existing stint number (keeps insertion
position). -/
def setStint (ds : DriverStints) (n : Int) (s : Stint) : DriverStints :=
  ds.map (fun e => if e.1 == n then (e.1, s) else e)

/-- `max(stint_numbers)` — the dict key of the last stint. -/
def last_stint_key (ds : DriverStints) : Option Int := (keysOf ds).max?

/-- `_get_last_stint`: the stint with the largest stint number, `None`
when the driver has none. -/
def get_last_stint (ds : DriverStints) : Option Stint :=
  match last_stint_key ds with
  | none => none
  | some k => stintAt ds k

/-- The fresh `Stint` constructed by `_add_stint`. -/
def mkStint (mk sk drv n : Int) : Stint :=
  { meeting_key := mk, session_key := sk, stint_number := n,
    driver_number := drv }

/-- `_add_stint` from `stints.py`.  When the announcement arrives less
than 10 s after the previous stint's `_date_start_last_lap`, the
previous stint's `lap_end` is decremented first (`lap_end -= 1` raises
`TypeError` when `lap_end` is `None`, modelled as `none`).  The new
stint's `lap_start`/`lap_end` are set to the previous (corrected)
`lap_end + 1` when that is set, and stay `None` otherwise — in
particular when the driver has no previous stint. -/
def add_stint (mk sk drv n t : Int) (ds : DriverStints) :
    Option DriverStints :=
  match last_stint_key ds with
  | none => some (ds ++ ([(n, mkStint mk sk drv n)] : DriverStints))
  | some kmax =>
    match stintAt ds kmax with
    | none => some (ds ++ ([(n, mkStint mk sk drv n)] : DriverStints))
    | some l =>
      let corr : Option (DriverStints × Stint) :=
        match l.date_start_last_lap with
        | some dl =>
          if t - dl < 10000 then
            match l.lap_end with
            | none => none
            | some e =>
              some (setStint ds kmax { l with lap_end := some (e - 1) },
                { l with lap_end := some (e - 1) })
          else some (ds, l)
        | none => some (ds, l)
      match corr with
      | none => none
      | some (ds1, l1) =>
        let s1 := match l1.lap_end with
          | some e => { mkStint mk sk drv n with
              lap_start := some (e + 1), lap_end := some (e + 1) }
          | none => mkStint mk sk drv n
        some (ds1 ++ ([(n, s1)] : DriverStints))

/-! ## Stints message processing (`stints.py` `process_message`,
driven by `process_messages` in `core/processing/main.py`).

`StintsCollection` keeps its state in class attributes and
`get_collections` is `lru_cache`d, so within one process the same
stateful instance serves every `process_messages` call for a given
`(meeting_key, session_key)`: state persists across runs. -/

/-- One upstream stint entry (`stint_data`): `none` models a non-dict
value; the fields model the presence of the `Compound` and `TotalLaps`
keys (the only keys the processor reads). -/
structure StintFields where
  compound : Option String := none
  total_laps : Option Int := none
deriving DecidableEq, Repr

/-- `stint_data`, possibly not a dict. -/
abbrev StintEntryData := Option StintFields

/-- The two upstream shapes of `data["Stints"]`: a list, or a dict with
string keys. -/
inductive StintsShape where
  | slist (l : List StintEntryData)
  | sdict (l : List (String × StintEntryData))
deriving DecidableEq, Repr

/-- `if stints_data:` — an empty list or dict is falsy. -/
def shapeTruthy : StintsShape → Bool
  | .slist l => !l.isEmpty
  | .sdict l => !l.isEmpty

/-- Auxiliary decimal-digit accumulator for `pyParseInt`. -/
def parseDigitsAux : List Char → Nat → Option Nat
  | [], acc => some acc
  | c :: cs, acc =>
    if c.isDigit then parseDigitsAux cs (acc * 10 + (c.toNat - '0'.toNat))
    else none

/-- Python `int(s)` on the strings used as stint keys (sign and digits;
the whitespace and underscore tolerance of CPython is out of scope). -/
def pyParseInt (s : String) : Option Int :=
  match s.data with
  | [] => none
  | '-' :: ds =>
    if ds.isEmpty then none
    else (parseDigitsAux ds 0).map (fun k => -(k : Int))
  | ds => (parseDigitsAux ds 0).map (fun k => (k : Int))

/-- The `(stint_number, stint_data)` pairs the entry loop iterates over:
for a list, `stints_number = [0] * len` so every entry gets number
`0 + 1 = 1`; for a dict, keys are sorted as strings, parsed (a parse
failure skips the entry), and incremented. -/
def parseEntries : StintsShape → List (Int × StintEntryData)
  | .slist l => l.map (fun d => (1, d))
  | .sdict l =>
    (py_sorted (fun a b => pyStrLt a.1 b.1) l).filterMap
      (fun e => (pyParseInt e.1).map (fun z => (z + 1, e.2)))

/-- The persistent `StintsCollection` state: `self.stints` (a
`defaultdict(dict)`, modelled as a total function since no code iterates
over it) and the identities `(driver_number, stint_number)` of the
objects in `self.updated_stints`. -/
structure SState where
  stints : Int → DriverStints
  updated : List (Int × Int)

/-- The fresh processor state. -/
def initStintsState : SState := { stints := fun _ => [], updated := [] }

/-- `_update_stint` from `stints.py`, generic over the updated property
(`get`/`set` mirror `getattr`/`setattr`): look the stint up, compare,
set, report whether the stint changed (and so was added to
`updated_stints`).  The `none` case is unreachable at every call site
(Python would raise `KeyError`). -/
def update_stint_field {α : Type} [DecidableEq α] (get : Stint → Option α)
    (set : Stint → Option α → Stint) (ds : DriverStints) (n : Int)
    (v : α) : DriverStints × Bool :=
  match stintAt ds n with
  | none => (ds, false)
  | some s =>
    if get s = some v then (ds, false)
    else (setStint ds n (set s (some v)), true)

/-- `_update_stint` for `compound`. -/
def update_stint_compound (ds : DriverStints) (n : Int) (c : String) :
    DriverStints × Bool :=
  update_stint_field (fun s => s.compound)
    (fun s x => { s with compound := x }) ds n c

/-- `_update_stint` for `tyre_age_at_start`. -/
def update_stint_tyre (ds : DriverStints) (n : Int) (tl : Int) :
    DriverStints × Bool :=
  update_stint_field (fun s => s.tyre_age_at_start)
    (fun s x => { s with tyre_age_at_start := x }) ds n tl

/-- `_update_stint` for `lap_start`. -/
def update_stint_lap_start (ds : DriverStints) (n : Int) (v : Int) :
    DriverStints × Bool :=
  update_stint_field (fun s => s.lap_start)
    (fun s x => { s with lap_start := x }) ds n v

/-- `_update_stint` for `lap_end`. -/
def update_stint_lap_end (ds : DriverStints) (n : Int) (v : Int) :
    DriverStints × Bool :=
  update_stint_field (fun s => s.lap_end)
    (fun s x => { s with lap_end := x }) ds n v

/-- `_update_stint` for `_date_start_last_lap`. -/
def update_stint_dsl (ds : DriverStints) (n : Int) (v : Int) :
    DriverStints × Bool :=
  update_stint_field (fun s => s.date_start_last_lap)
    (fun s x => { s with date_start_last_lap := x }) ds n v

/-- The `Compound` part of the entry loop body
(`if "Compound" in stint_data: self._update_stint(...)`). -/
def compound_step (ds : DriverStints) (n : Int) (f : StintFields) :
    DriverStints × List Int :=
  match f.compound with
  | some c =>
    let r := update_stint_compound ds n c
    (r.1, if r.2 then [n] else [])
  | none => (ds, [])

/-- The `TotalLaps` part of the entry loop body: applied only while
`tyre_age_at_start` is still unset. -/
def tyre_step (ds : DriverStints) (n : Int) (f : StintFields) :
    DriverStints × List Int :=
  match f.total_laps with
  | some tl =>
    match stintAt ds n with
    | some s =>
      if s.tyre_age_at_start = none then
        let r := update_stint_tyre ds n tl
        (r.1, if r.2 then [n] else [])
      else (ds, [])
    | none => (ds, [])
  | none => (ds, [])

/-- One iteration of the `TimingAppData` entry loop: add the stint when
its number is new (this can raise, `none`), then apply the `Compound`
update and — only while `tyre_age_at_start` is still unset — the
`TotalLaps` update.  Returns the driver state and the numbers of the
stints that changed. -/
def process_stint_entry (mk sk drv t : Int) (ds : DriverStints) :
    Int × StintEntryData → Option (DriverStints × List Int)
  | (n, d) =>
    let add? : Option DriverStints :=
      if n ∈ keysOf ds then some ds else add_stint mk sk drv n t ds
    match add? with
    | none => none
    | some ds1 =>
      match d with
      | none => some (ds1, [])
      | some f =>
        let r2 := compound_step ds1 n f
        let r3 := tyre_step r2.1 n f
        some (r3.1, r2.2 ++ r3.2)

/-- The entry loop.  A raise aborts the remaining entries and keeps the
partial state (the exception escapes the generator and is caught by the
driver). -/
def go_entries (mk sk drv t : Int) :
    DriverStints → List (Int × StintEntryData) →
      DriverStints × List Int × Bool
  | ds, [] => (ds, [], true)
  | ds, e :: es =>
    match process_stint_entry mk sk drv t ds e with
    | none => (ds, [], false)
    | some (ds1, ms) =>
      let r := go_entries mk sk drv t ds1 es
      (r.1, ms ++ r.2.1, r.2.2)

/-- Set-insertion into the updated-stints identity set. -/
def addMark (u : List (Int × Int)) (k : Int × Int) : List (Int × Int) :=
  if k ∈ u then u else u ++ [k]

/-- One driver line of a `TimingAppData` message (`none` models a
non-dict `data` or a missing/falsy `Stints` value — both skip). -/
def process_ta_line (mk sk t : Int) (st : SState) :
    Int × Option StintsShape → SState × Bool
  | (_, none) => (st, true)
  | (drv, some shape) =>
    if shapeTruthy shape then
      let ds := st.stints drv
      let r := go_entries mk sk drv t ds (parseEntries shape)
      ({ stints := Function.update st.stints drv r.1,
         updated := r.2.1.foldl (fun u n => addMark u (drv, n)) st.updated },
       r.2.2)
    else (st, true)

/-- The `TimingAppData` line loop, aborting on a raise. -/
def go_ta_lines (mk sk t : Int) :
    SState → List (Int × Option StintsShape) → SState × Bool
  | st, [] => (st, true)
  | st, l :: ls =>
    match process_ta_line mk sk t st l with
    | (st1, true) => go_ta_lines mk sk t st1 ls
    | (st1, false) => (st1, false)

/-- One driver line of a `TimingData` message: ensure a first stint
exists, then — when `NumberOfLaps` is present — update `lap_start` (only
if unset), `lap_end` and `_date_start_last_lap` of the last stint.
`add_stint` on an empty driver dict never raises, so the `getD` default
is unreachable. -/
def process_td_line (mk sk t : Int) (st : SState) :
    Int × Option (Option Int) → SState
  | (_, none) => st
  | (drv, some nolq) =>
    let ds := st.stints drv
    let ds1 := if ds.isEmpty then (add_stint mk sk drv 1 t ds).getD ds else ds
    match nolq with
    | none => { st with stints := Function.update st.stints drv ds1 }
    | some nol =>
      match get_last_stint ds1 with
      | none => { st with stints := Function.update st.stints drv ds1 }
      | some s =>
        let r1 : DriverStints × List Int :=
          if s.lap_start = none then
            let r := update_stint_lap_start ds1 s.stint_number nol
            (r.1, if r.2 then [s.stint_number] else [])
          else (ds1, [])
        let r2 : DriverStints × List Int :=
          let r := update_stint_lap_end r1.1 s.stint_number nol
          (r.1, if r.2 then [s.stint_number] else [])
        let r3 : DriverStints × List Int :=
          let r := update_stint_dsl r2.1 s.stint_number t
          (r.1, if r.2 then [s.stint_number] else [])
        { stints := Function.update st.stints drv r3.1,
          updated := (r1.2 ++ r2.2 ++ r3.2).foldl
            (fun u n => addMark u (drv, n)) st.updated }

/-- A message the stints processor consumes: `TimingAppData` (its
`Lines` dict), or `TimingData` (whose `Lines` key may be absent —
`none`). -/
inductive SMsg where
  | ta (t : Int) (lines : List (Int × Option StintsShape))
  | td (t : Int) (lines : Option (List (Int × Option (Option Int))))
deriving Repr

/-- `yield from self.updated_stints`: render the updated stint objects
at their end-of-message content. -/
def emit_docs (st : SState) : List Stint :=
  st.updated.filterMap (fun k => stintAt (st.stints k.1) k.2)

/-- `StintsCollection.process_message`: returns the new persistent
state, the yielded documents, and whether the message was processed
without a raise.  On a raise, nothing is yielded and `updated_stints`
is not cleared; on a `TimingData` message without `Lines`, the
processor returns before the yield, also leaving `updated_stints` in
place. -/
def process_message_stints (mk sk : Int) (st : SState) (m : SMsg) :
    SState × List Stint × Bool :=
  match m with
  | .ta t lines =>
    match go_ta_lines mk sk t st lines with
    | (st1, true) => ({ st1 with updated := [] }, emit_docs st1, true)
    | (st1, false) => (st1, [], false)
  | .td _ none => (st, [], true)
  | .td t (some lines) =>
    let st1 := lines.foldl (fun s l => process_td_line mk sk t s l) st
    ({ st1 with updated := [] }, emit_docs st1, true)

/-- The `unique_key` of a stint. -/
def stint_ukey (s : Stint) : List PyVal :=
  [.pint s.session_key, .pint s.stint_number, .pint s.driver_number]

/-- The `docs_buf[collection][doc] = doc` replacement: a later emission
replaces the earlier one with the same `unique_key`, in place. -/
def buf_insert (buf : List Stint) (d : Stint) : List Stint :=
  if buf.any (fun b => stint_ukey b == stint_ukey d) then
    buf.map (fun b => if stint_ukey b == stint_ukey d then d else b)
  else buf ++ [d]

/-- `process_messages` restricted to the stints collection: fold the
messages through the cached processor state, buffer the emitted
documents by `unique_key`, and flush sorted by `Document.__lt__`. -/
def process_messages_stints (mk sk : Int) (st : SState)
    (msgs : List SMsg) : SState × List Stint :=
  let r := msgs.foldl (fun (acc : SState × List Stint) m =>
    let p := process_message_stints mk sk acc.1 m
    (p.1, p.2.1.foldl buf_insert acc.2)) (st, [])
  (r.1, py_sorted (fun a b => document_lt (stint_ukey a) (stint_ukey b)) r.2)

/-- The message of the C8 counterexample: one `TimingAppData` line for
driver 44 announcing stint key `"0"` with compound `SOFT`. -/
def c8msg : SMsg :=
  .ta 100 [(44, some (.sdict [("0", some { compound := some "SOFT" })]))]

/-- A list-shaped `Stints` value with two entries for driver 44.
Because `stints_number = [0] * len(stints_data)`, both entries are
applied to stint number `0 + 1 = 1`, alternating its compound. -/
def c8msgList : SMsg :=
  .ta 100 [(44, some (.slist [some { compound := some "SOFT" },
                              some { compound := some "MEDIUM" }]))]

/-! ### The entry-loop invariant: an entry already applied to the state -/

/-- A `(stint_number, stint_data)` entry is fully applied to a driver
state: the stint exists, its compound matches the entry's `Compound`
value when present, and its tyre age is set when the entry carries
`TotalLaps`. -/
def EntryDone (ds : DriverStints) : Int × StintEntryData → Prop
  | (n, d) =>
    n ∈ keysOf ds ∧
    ∀ f, d = some f →
      (∀ c, f.compound = some c →
        (stintAt ds n).map (fun x => x.compound) = some (some c)) ∧
      (f.total_laps.isSome = true →
        ∃ y, (stintAt ds n).map (fun x => x.tyre_age_at_start) =
          some (some y))

/-- A `TimingData` `NumberOfLaps` value is fully applied to a driver
dict: the dict is non-empty and the stint stored under the last stint's
`stint_number` (when present) already carries `lap_end = nol`,
`_date_start_last_lap = t` and — when the last stint's `lap_start` is
unset — `lap_start = nol`. -/
def TdDone (nol t : Int) (D : DriverStints) : Prop :=
  D ≠ [] ∧
  ∀ s, get_last_stint D = some s →
    (s.lap_start = none →
      ∀ u, stintAt D s.stint_number = some u → u.lap_start = some nol) ∧
    (∀ u, stintAt D s.stint_number = some u →
      u.lap_end = some nol ∧ u.date_start_last_lap = some t)

/-- The key-distinctness a message needs for its replay to be a strict
no-op: the driver keys of `Lines` are distinct (`Lines` is a dict), and
each line's parsed stint numbers are distinct.  The latter holds for a
dict-shaped `Stints` whose keys parse to distinct numbers, but fails
for a list-shaped `Stints` with two or more entries, since
`stints_number = [0] * len(stints_data)` maps every list entry to stint
number 1 — and for those messages the replay is in fact not a no-op
(see the counterexample). -/
def msgNodup : SMsg → Prop
  | .ta _ lines =>
    (lines.map Prod.fst).Nodup ∧
    ∀ p ∈ lines, ∀ shape, p.2 = some shape →
      ((parseEntries shape).map Prod.fst).Nodup
  | .td _ none => True
  | .td _ (some lines) => (lines.map Prod.fst).Nodup

/-! ### C9: the per-processor try/except of `process_message`
(`main.py` lines 29-38)

A collection processor is a named, stateful object whose
`process_message` either yields documents or raises.  The driver loop
`for collection in selected_collections: try ... except` runs each
processor on its own state; a raise is caught per processor
(`traceback.print_exc()`) and only skips that processor's entry in
`results` (which is populated only when `len(documents) > 0`). -/

/-- A collection processor: its `name`, its private mutable state, and
its `process_message` step — `none` models a raised exception (the
state still advances to whatever the partially-run generator left
behind). -/
structure Proc (σ δ μ : Type) where
  name : String
  st : σ
  step : σ → μ → σ × Option (List δ)

/-- `results[collection.name] = documents if len(documents) > 0`, and
nothing on an exception. -/
def procResult {σ δ μ : Type} (m : μ) (p : Proc σ δ μ) :
    Option (String × List δ) :=
  match (p.step p.st m).2 with
  | none => none
  | some docs => if docs.isEmpty then none else some (p.name, docs)

/-- The driver's `process_message` loop: every processor runs on its own
state (its raise caught individually), and `results` collects the named
non-empty outputs in processor order. -/
def process_message_driver {σ δ μ : Type} (ps : List (Proc σ δ μ))
    (m : μ) : List (Proc σ δ μ) × List (String × List δ) :=
  (ps.map (fun p => { p with st := (p.step p.st m).1 }),
   ps.filterMap (procResult m))

/-- The driver over a message list, returning the final processors and
the per-message results. -/
def runMessages {σ δ μ : Type} (ps : List (Proc σ δ μ)) (msgs : List μ) :
    List (Proc σ δ μ) × List (List (String × List δ)) :=
  match msgs with
  | [] => (ps, [])
  | m :: ms =>
    let r := process_message_driver ps m
    let rest := runMessages r.1 ms
    (rest.1, r.2 :: rest.2)

/-- The documents a collection named `c` received, message by
message. -/
def resultsFor {δ : Type} (c : String)
    (out : List (List (String × List δ))) : List (List (List δ)) :=
  out.map (fun res =>
    res.filterMap (fun e => if e.1 = c then some e.2 else none))

/-- A processor for the stints collection that raises on every
message (its state still advances). -/
def c9ProcFail : Proc Int Int Int :=
  { name := "stints", st := 0, step := fun s _ => (s + 1, none) }

/-- The same processor with the raise replaced by an empty yield. -/
def c9ProcSilent : Proc Int Int Int :=
  { name := "stints", st := 0, step := fun s _ => (s + 1, some []) }

/-- A processor for the laps collection that echoes each message. -/
def c9ProcLaps : Proc Int Int Int :=
  { name := "laps", st := 0, step := fun s m => (s + 1, some [m]) }

/-! ## Theorems -/

/-- C2.  For every query parameter on a datetime-valued field whose value
has no time-of-day component, the parser expands it exactly as the claim
states: `date=D` becomes `date>=D AND date<D+1d`; `date<=D` becomes
`date<D+1d`; `date>D` becomes `date>=D+1d`; `date<D` and `date>=D` pass
through unchanged (`D+1d` is `D` plus `timedelta(days=1)`, the start of
the following day for a date parsed at midnight). -/
theorem c2_date_param_expansion (f : String) (D : Int) :
    str_to_query_params ⟨f, .eq, .dtime D false⟩ =
      [⟨f, .gte, .dtime D false⟩, ⟨f, .lt, .dtime (D + 86400000) false⟩] ∧
    str_to_query_params ⟨f, .lte, .dtime D false⟩ =
      [⟨f, .lt, .dtime (D + 86400000) false⟩] ∧
    str_to_query_params ⟨f, .gt, .dtime D false⟩ =
      [⟨f, .gte, .dtime (D + 86400000) false⟩] ∧
    str_to_query_params ⟨f, .lt, .dtime D false⟩ =
      [⟨f, .lt, .dtime D false⟩] ∧
    str_to_query_params ⟨f, .gte, .dtime D false⟩ =
      [⟨f, .gte, .dtime D false⟩] := by
  refine ⟨rfl, rfl, rfl, rfl, rfl⟩

/-- C3 counterexample.  On the two-record list `[recB, recA]`, the source
`sort_results` sorts by `date` first and returns `[recA, recB]`, while
the key order stated by the claim (`date_start` before `date`) would
return `[recB, recA]`: the claimed priority order is not the one the code
uses (the code also has no `position` key). -/
theorem c3_counterexample_sort_key_order :
    sort_results [recB, recA] = [recA, recB] ∧
    claim_sort_results [recB, recA] = [recB, recA] ∧
    recA ≠ recB := by
  refine ⟨by decide, by decide, by decide⟩

/-- With no selected keys every record compares `≤` to every record. -/
theorem sorted_recLe_nil (l : List Rec) : List.Sorted (recLe []) l := by
  induction l with
  | nil => exact List.sorted_nil
  | cons a t ih =>
    exact List.sorted_cons.mpr ⟨fun b _ => rfl, ih⟩

/-- A list of length at most one is sorted. -/
theorem sorted_of_length_le_one {r : Rec → Rec → Prop} {l : List Rec}
    (h : l.length ≤ 1) : List.Sorted r l := by
  match l with
  | [] => exact List.sorted_nil
  | [a] => exact List.sorted_singleton a
  | a :: b :: t => simp at h

/-- C3 (amended).  After deduplication, `sort_results` re-sorts a result
list ascending by the keys that are present with non-null values in every
record, taken in the priority order of the source list `sortKeys`:
`date, date_start, meeting_key, session_key, lap_start, lap_number,
lap_end, date_end, stint_number, driver_number` (`position` is not a sort
key).  The output is a permutation of the input, sorted by the
selected-keys tuples. -/
theorem c3_sort_results_sorted_by_source_keys (rs : List Rec) :
    (sort_results rs).Perm rs ∧
    List.Sorted (recLe (selectedSortKeys rs)) (sort_results rs) := by
  unfold sort_results
  by_cases h1 : rs.length ≤ 1
  · rw [if_pos h1]
    exact ⟨List.Perm.refl rs, sorted_of_length_le_one h1⟩
  · rw [if_neg h1]
    by_cases h2 : (selectedSortKeys rs).isEmpty
    · simp only [h2, if_true]
      refine ⟨List.Perm.refl rs, ?_⟩
      rw [List.isEmpty_iff.mp h2]
      exact sorted_recLe_nil rs
    · simp only [h2, if_false]
      exact ⟨rs.perm_insertionSort (recLe (selectedSortKeys rs)),
        List.sorted_insertionSort (recLe (selectedSortKeys rs)) rs⟩

/-- Filtering the deduplicated list for one key yields the first version
with that key, if the key was not already consumed. -/
theorem dedupFirstAux_filter (k : String) :
    ∀ (seen : List String) (l : List StoredDoc),
      (dedupFirstAux seen l).filter (fun d => d.key == k) =
        if k ∈ seen then [] else (l.filter (fun d => d.key == k)).take 1 := by
  intro seen l
  induction l generalizing seen with
  | nil => simp [dedupFirstAux]
  | cons d ds ih =>
    by_cases hdk : d.key ∈ seen
    · rw [dedupFirstAux, if_pos hdk, ih seen]
      by_cases hk : k ∈ seen
      · simp [hk]
      · have hne : (d.key == k) = false := by
          simp only [beq_eq_false_iff_ne]
          intro he
          exact hk (he ▸ hdk)
        simp [hk, List.filter_cons, hne]
    · rw [dedupFirstAux, if_neg hdk]
      by_cases hdk2 : d.key = k
      · have hk : k ∉ seen := fun h => hdk (hdk2 ▸ h)
        have hmem : k ∈ d.key :: seen := by simp [hdk2]
        have hbeq : (d.key == k) = true := by simp [hdk2]
        rw [List.filter_cons, List.filter_cons, hbeq, if_pos rfl, if_pos rfl,
          ih (d.key :: seen), if_pos hmem, if_neg hk]
        rfl
      · have hiff : (k ∈ d.key :: seen) ↔ k ∈ seen := by
          simp only [List.mem_cons]
          constructor
          · rintro (h | h)
            · exact absurd h.symm hdk2
            · exact h
          · exact Or.inr
        have hne : (d.key == k) = false := by
          simp only [beq_eq_false_iff_ne]
          exact hdk2
        simp only [List.filter_cons, hne, if_false, ih (d.key :: seen)]
        by_cases hk : k ∈ seen
        · simp [hk, hiff.mpr hk]
        · have : k ∉ d.key :: seen := fun h => hk (hiff.mp h)
          simp [hk, this]

/-- C1 counterexample.  Two stored versions of the same meetings `_key`
with `_id` 1 and 2: the pipeline of `get_documents` keeps the version
with the larger `_id` for the `meetings` collection too — the `_id` sort
is `-1` (descending) unconditionally, so the latest version is kept, not
the earliest as the claim states for `meetings`. -/
theorem c1_counterexample_meetings_keeps_latest :
    get_documents "meetings" (fun _ => true)
        [⟨"1219", 1, some 100, some 1219, none, none⟩,
         ⟨"1219", 2, some 100, some 1219, none, none⟩] =
      [⟨"1219", 2, some 100, some 1219, none, none⟩] ∧
    get_documents "meetings" (fun _ => true)
        [⟨"1219", 1, some 100, some 1219, none, none⟩,
         ⟨"1219", 2, some 100, some 1219, none, none⟩] ≠
      [⟨"1219", 1, some 100, some 1219, none, none⟩] := by
  refine ⟨by decide, by decide⟩

/-- C1 (amended).  For every collection — including `meetings` — and
every multiset of stored versions sharing one `_key`, the query response
contains exactly one document for that `_key`, namely the version with
the largest `_id`.  (Hypotheses: `_id`s are unique, as MongoDB
guarantees, and `v` is the version of key `k` with the largest `_id`.) -/
theorem c1_get_documents_keeps_max_id (name : String)
    (stored : List StoredDoc) (k : String) (v : StoredDoc)
    (hnd : (stored.map (fun d => d.id)).Nodup)
    (hv : v ∈ stored) (hk : v.key = k)
    (hmax : ∀ u ∈ stored, u.key = k → u.id ≤ v.id) :
    (get_documents name (fun _ => true) stored).filter (fun d => d.key == k)
      = [v] := by
  unfold get_documents
  simp only [List.filter_true]
  set S := stored.insertionSort idDesc with hSdef
  have hSperm : S.Perm stored := stored.perm_insertionSort idDesc
  have hSsorted : List.Sorted idDesc S := List.sorted_insertionSort idDesc stored
  set F := S.filter (fun d => d.key == k) with hFdef
  have hFsorted : List.Sorted idDesc F := hSsorted.filter _
  have hvF : v ∈ F := by
    rw [hFdef, List.mem_filter]
    exact ⟨hSperm.mem_iff.mpr hv, by simp [hk]⟩
  have hFid : (F.map (fun d => d.id)).Nodup := by
    have h1 : (S.map (fun d => d.id)).Nodup :=
      ((hSperm.map (fun d => d.id)).nodup_iff).mpr hnd
    exact h1.sublist ((S.filter_sublist).map (fun d => d.id))
  have hmaxF : ∀ u ∈ F, u.id ≤ v.id := by
    intro u hu
    rw [hFdef, List.mem_filter] at hu
    exact hmax u (hSperm.mem_iff.mp hu.1) (by simpa using hu.2)
  -- the head of the `_id`-descending filtered list is the max-`_id` version
  have hFv : F.take 1 = [v] := by
    match hF : F with
    | [] => rw [hF] at hvF; exact absurd hvF (List.not_mem_nil v)
    | h :: t =>
      have hhF : h ∈ F := by rw [hF]; exact List.mem_cons_self h t
      have h1 : h.id ≤ v.id := hmaxF h hhF
      have h2 : v.id ≤ h.id := by
        rw [hF] at hvF
        rcases List.mem_cons.mp hvF with he | ht
        · rw [he]
        · rw [hF] at hFsorted
          exact List.rel_of_sorted_cons hFsorted v ht
      have hideq : h.id = v.id := le_antisymm h1 h2
      have : h = v := by
        rw [hF] at hFid
        exact List.inj_on_of_nodup_map hFid (hF ▸ hhF) (hF ▸ hvF) hideq
      rw [List.take, List.take, this]
  have hdedup : (dedup_by_key S).filter (fun d => d.key == k) = [v] := by
    rw [dedup_by_key, dedupFirstAux_filter k [] S]
    simpa using hFv
  have hperm2 : List.Perm
      (((dedup_by_key S).insertionSort mongoLe).filter (fun d => d.key == k))
      [v] := by
    rw [← hdedup]
    exact ((dedup_by_key S).perm_insertionSort mongoLe).filter _
  exact List.perm_singleton.mp hperm2

/-- C1 witness: two versions of key `9158_5_63`, the pipeline returns
exactly the higher-`_id` one. -/
theorem c1_get_documents_keeps_max_id_witness :
    (get_documents "laps" (fun _ => true)
        [⟨"9158_5_63", 10, some 7, some 1219, some 9158, none⟩,
         ⟨"9158_5_63", 11, some 8, some 1219, some 9158, none⟩]).filter
        (fun d => d.key == "9158_5_63")
      = [⟨"9158_5_63", 11, some 8, some 1219, some 9158, none⟩] :=
  c1_get_documents_keeps_max_id "laps" _ "9158_5_63" _
    (by decide) (by decide) rfl (by decide)

/-- C4 counterexample.  All three sector durations are set and
`lap_duration` is unset, yet the inference does not fire, because the
source condition uses Python truthiness and `duration_sector_1 == 0.0` is
falsy: the emitted `lap_duration` stays `None` instead of the claimed
`round(0 + 30 + 30, 3) = 60`. -/
theorem c4_counterexample_zero_sector_blocks_inference :
    (infer_missing_lap_duration c4Lap).lap_duration = none ∧
    (infer_missing_lap_duration c4Lap).lap_duration ≠
      some (pyRound3 ((0 : Rat) + 30 + 30)) := by
  refine ⟨by decide, by decide⟩

/-- C4 (amended).  If all three sector durations are set to nonzero
values and `lap_duration` is unset (or zero — Python truthiness), the
inferred `lap_duration` equals
`round(duration_sector_1 + duration_sector_2 + duration_sector_3, 3)`. -/
theorem c4_infer_lap_duration_of_nonzero_sectors (lap : Lap) (a b c : Rat)
    (h1 : lap.duration_sector_1 = some a)
    (h2 : lap.duration_sector_2 = some b)
    (h3 : lap.duration_sector_3 = some c)
    (ha : a ≠ 0) (hb : b ≠ 0) (hc : c ≠ 0)
    (hd : lap.lap_duration = none ∨ lap.lap_duration = some 0) :
    (infer_missing_lap_duration lap).lap_duration = some (pyRound3 (a + b + c)) := by
  unfold infer_missing_lap_duration
  rw [if_pos]
  · simp [h1, h2, h3]
  · rcases hd with hd | hd <;> simp [pyTruthy, h1, h2, h3, ha, hb, hc, hd]

/-- C4 witness: the spec scenario — sectors 26.966, 38.657, 26.12 give
`lap_duration = round(91.743, 3)`. -/
theorem c4_infer_lap_duration_of_nonzero_sectors_witness :
    (infer_missing_lap_duration
      { meeting_key := 1219, session_key := 9161, driver_number := 63,
        lap_number := 5, duration_sector_1 := some 26.966,
        duration_sector_2 := some 38.657,
        duration_sector_3 := some 26.12 }).lap_duration =
      some (pyRound3 ((26.966 : Rat) + 38.657 + 26.12)) :=
  c4_infer_lap_duration_of_nonzero_sectors _ _ _ _ rfl rfl rfl
    (by norm_num) (by norm_num) (by norm_num) (Or.inl rfl)

/-- The inference only writes `lap_duration`; sector 2 is untouched. -/
theorem infer_preserves_duration_sector_2 (l : Lap) :
    (infer_missing_lap_duration l).duration_sector_2 = l.duration_sector_2 := by
  unfold infer_missing_lap_duration
  split <;> rfl

/-- The inference only writes `lap_duration`; sector 3 is untouched. -/
theorem infer_preserves_duration_sector_3 (l : Lap) :
    (infer_missing_lap_duration l).duration_sector_3 = l.duration_sector_3 := by
  unfold infer_missing_lap_duration
  split <;> rfl

/-- Selection lemma: an end-of-lap update arriving less than 10 s after
the newest lap's `date_start`, for a driver with at least two laps,
targets the previous lap (index `length - 2`). -/
theorem get_current_lap_late (ctx : LapsCtx) (st : DriverLaps)
    (drv d t : Int) (lastLap : Lap)
    (hlen : 2 ≤ st.laps.length)
    (hlast : st.laps.getLast? = some lastLap)
    (hds : lastLap.date_start = some d)
    (h10 : t - d < 10000) :
    get_current_lap ctx st drv t true = (st, some (st.laps.length - 2)) := by
  have hne : st.laps.isEmpty = false := by
    cases hl : st.laps with
    | nil => rw [hl] at hlen; simp at hlen
    | cons a l => rfl
  unfold get_current_lap
  simp only [hne, Bool.false_eq_true, if_false, hlast, hds, Bool.true_and,
    decide_eq_true h10, if_true]
  rw [if_neg (by omega)]

/-- Behavior of `update_lap` when the selection yields index `i` holding
`lap`: every other index is untouched, and index `i` receives the written
(and possibly inference-extended) lap, or stays as is when the value
compares equal. -/
theorem update_lap_at_some {α : Type} [DecidableEq α] (ctx : LapsCtx)
    (get : Lap → Option α) (set : Lap → Option α → Lap)
    (isDur : Bool) (st : DriverLaps) (drv : Int) (v : α)
    (isEnd : Bool) (t : Int) (i : Nat) (lap : Lap)
    (hgcl : get_current_lap ctx st drv t isEnd = (st, some i))
    (hget : st.laps[i]? = some lap) :
    (∀ j, j ≠ i →
      (update_lap ctx get set isDur st drv v isEnd t).laps[j]? = st.laps[j]?) ∧
    (update_lap ctx get set isDur st drv v isEnd t).laps[i]? =
      (if some v ≠ get lap then
        some (if isDur then infer_missing_lap_duration (set lap (some v))
          else set lap (some v))
      else some lap) := by
  have hi : i < st.laps.length := by
    rcases List.getElem?_eq_some.mp hget with ⟨h, _⟩
    exact h
  unfold update_lap
  rw [hgcl]
  dsimp only
  rw [hget]
  dsimp only
  by_cases hvv : some v ≠ get lap
  · simp only [if_pos hvv]
    constructor
    · intro j hj
      split <;> split <;> exact List.getElem?_set_ne (fun h => hj h.symm)
    · split <;> split <;> exact List.getElem?_set_eq_of_lt _ hi
  · constructor
    · intro j hj
      simp only [if_neg hvv]
    · simp only [if_neg hvv]
      exact hget

/-- C5.  For a driver with at least two recorded laps, a sector-2 or
sector-3 duration or segment update whose timepoint lies within 10 s
after the newest lap's `date_start` is applied to the previous lap
(index `length - 2`), not the current one: the selection returns the
previous index, every other lap (in particular the newest) is untouched,
the previous lap receives the sector value, and the segment write lands
on the previous lap's segment array. -/
theorem c5_late_sector_update_applied_to_previous_lap (ctx : LapsCtx)
    (st : DriverLaps) (drv d t : Int) (lastLap prevLap : Lap) (v : Rat)
    (m : Nat) (status : Option Int)
    (hlen : 2 ≤ st.laps.length)
    (hlast : st.laps.getLast? = some lastLap)
    (hprev : st.laps[st.laps.length - 2]? = some prevLap)
    (hds : lastLap.date_start = some d)
    (h0 : 0 ≤ t - d) (h10 : t - d < 10000) :
    get_current_lap ctx st drv t true = (st, some (st.laps.length - 2)) ∧
    (∀ j, j ≠ st.laps.length - 2 →
      (update_duration_sector ctx st drv 2 v t).laps[j]? = st.laps[j]? ∧
      (update_duration_sector ctx st drv 3 v t).laps[j]? = st.laps[j]? ∧
      (add_segment_status ctx st drv 2 m status t).laps[j]? = st.laps[j]?) ∧
    ((update_duration_sector ctx st drv 2 v t).laps[st.laps.length - 2]?).map
      (fun l => l.duration_sector_2) = some (some v) ∧
    ((update_duration_sector ctx st drv 3 v t).laps[st.laps.length - 2]?).map
      (fun l => l.duration_sector_3) = some (some v) ∧
    ((add_segment_status ctx st drv 2 m status t).laps[st.laps.length - 2]?).map
      (fun l => l.segments_sector_2) =
      some (some (growSet (prevLap.segments_sector_2.getD []) m status)) := by
  have _h0 := h0
  have hgcl := get_current_lap_late ctx st drv d t lastLap hlen hlast hds h10
  set i := st.laps.length - 2 with hidef
  have hs2 := update_lap_at_some ctx (fun l => l.duration_sector_2)
    (fun l x => { l with duration_sector_2 := x }) true st drv v true t i
    prevLap hgcl hprev
  have hs3 := update_lap_at_some ctx (fun l => l.duration_sector_3)
    (fun l x => { l with duration_sector_3 := x }) true st drv v true t i
    prevLap hgcl hprev
  have hu2 : update_duration_sector ctx st drv 2 v t =
      update_lap ctx (fun l => l.duration_sector_2)
        (fun l x => { l with duration_sector_2 := x }) true st drv v true t := rfl
  have hu3 : update_duration_sector ctx st drv 3 v t =
      update_lap ctx (fun l => l.duration_sector_3)
        (fun l x => { l with duration_sector_3 := x }) true st drv v true t := rfl
  -- the segment write, in both source branches, sets index i to the
  -- grown segment array
  have hseg : (∀ j, j ≠ i →
        (add_segment_status ctx st drv 2 m status t).laps[j]? = st.laps[j]?) ∧
      ((add_segment_status ctx st drv 2 m status t).laps[i]?).map
        (fun l => l.segments_sector_2) =
        some (some (growSet (prevLap.segments_sector_2.getD []) m status)) := by
    have hi : i < st.laps.length := by omega
    unfold add_segment_status
    simp only [show (decide (2 > 1)) = true from rfl]
    rw [hgcl]
    dsimp only
    rw [hprev]
    dsimp only
    cases hold : prevLap.segments_sector_2 with
    | some old =>
      simp only [segments_get, hold]
      refine ⟨fun j hj => List.getElem?_set_ne (fun h => hj h.symm), ?_⟩
      rw [List.getElem?_set_eq_of_lt _ hi]
      simp [segments_set, hold]
    | none =>
      simp only [segments_get, hold]
      have hup := update_lap_at_some ctx (fun l => l.segments_sector_2)
        (fun l x => segments_set l 2 x) false st drv
        (growSet [] m status) true t i prevLap hgcl hprev
      have hne2 : some (growSet [] m status) ≠ prevLap.segments_sector_2 := by
        simp [hold]
      refine ⟨hup.1, ?_⟩
      rw [hup.2, if_pos hne2]
      simp [segments_set, hold]
  refine ⟨hgcl, ?_, ?_, ?_, hseg.2⟩
  · intro j hj
    exact ⟨hu2 ▸ hs2.1 j hj, hu3 ▸ hs3.1 j hj, hseg.1 j hj⟩
  · rw [hu2, hs2.2]
    by_cases hvv : some v ≠ prevLap.duration_sector_2
    · rw [if_pos hvv]
      simp [infer_preserves_duration_sector_2]
    · rw [if_neg hvv]
      push_neg at hvv
      simp [hvv.symm]
  · rw [hu3, hs3.2]
    by_cases hvv : some v ≠ prevLap.duration_sector_3
    · rw [if_pos hvv]
      simp [infer_preserves_duration_sector_3]
    · rw [if_neg hvv]
      push_neg at hvv
      simp [hvv.symm]

/-- C5 witness: the spec scenario — `NumberOfLaps` bumps opened lap 8 at
`T + 80 s`; a `Sectors.2.Value = 26.12` arriving at `T + 83 s` is applied
to lap 7, not lap 8. -/
theorem c5_late_sector_update_applied_to_previous_lap_witness :
    get_current_lap ctx5w st5w 55 83000 true = (st5w, some 0) ∧
    (∀ j, j ≠ 0 →
      (update_duration_sector ctx5w st5w 55 2 26.12 83000).laps[j]? = st5w.laps[j]? ∧
      (update_duration_sector ctx5w st5w 55 3 26.12 83000).laps[j]? = st5w.laps[j]? ∧
      (add_segment_status ctx5w st5w 55 2 3 (some 2048) 83000).laps[j]? = st5w.laps[j]?) ∧
    ((update_duration_sector ctx5w st5w 55 2 26.12 83000).laps[0]?).map
      (fun l => l.duration_sector_2) = some (some (26.12 : Rat)) ∧
    ((update_duration_sector ctx5w st5w 55 3 26.12 83000).laps[0]?).map
      (fun l => l.duration_sector_3) = some (some (26.12 : Rat)) ∧
    ((add_segment_status ctx5w st5w 55 2 3 (some 2048) 83000).laps[0]?).map
      (fun l => l.segments_sector_2) =
      some (some (growSet (lap7w.segments_sector_2.getD []) 3 (some 2048))) :=
  c5_late_sector_update_applied_to_previous_lap ctx5w st5w 55 80000 83000
    lap8w lap7w 26.12 3 (some 2048) (by decide) rfl rfl rfl
    (by decide) (by decide)

/-- C10.  When an end-of-lap update (sector-2/3 duration, sector-2/3
segment status, or a `LastLapTime` value) arrives less than 10 s after
the current lap's `date_start` while the driver has only one recorded
lap, the update is discarded entirely: the selection returns `none`, no
lap field is modified and the state (including the updated-laps marks) is
exactly unchanged, so no document is emitted for it. -/
theorem c10_early_end_of_lap_update_is_discarded (ctx : LapsCtx)
    (st : DriverLaps) (drv : Int) (l0 : Lap) (d t : Int) (v : Rat)
    (m : Nat) (status : Option Int)
    (hone : st.laps = [l0])
    (hds : l0.date_start = some d)
    (h10 : t - d < 10000) :
    get_current_lap ctx st drv t true = (st, none) ∧
    update_duration_sector ctx st drv 2 v t = st ∧
    update_duration_sector ctx st drv 3 v t = st ∧
    update_lap_duration ctx st drv v t = st ∧
    add_segment_status ctx st drv 2 m status t = st ∧
    add_segment_status ctx st drv 3 m status t = st := by
  have hne : st.laps.isEmpty = false := by rw [hone]; rfl
  have hlast : st.laps.getLast? = some l0 := by rw [hone]; rfl
  have hlen : st.laps.length < 2 := by rw [hone]; exact Nat.one_lt_two
  have hgcl : get_current_lap ctx st drv t true = (st, none) := by
    unfold get_current_lap
    simp only [hne, Bool.false_eq_true, if_false, hlast, hds, Bool.true_and,
      decide_eq_true h10, if_true]
    rw [if_pos hlen]
  have hgcl2 : get_current_lap ctx st drv t (decide (2 > 1)) = (st, none) := hgcl
  have hgcl3 : get_current_lap ctx st drv t (decide (3 > 1)) = (st, none) := hgcl
  refine ⟨hgcl, ?_, ?_, ?_, ?_, ?_⟩
  · show update_lap ctx (fun l => l.duration_sector_2)
      (fun l x => { l with duration_sector_2 := x }) true st drv v
      (decide (2 > 1)) t = st
    unfold update_lap
    rw [hgcl2]
  · show update_lap ctx (fun l => l.duration_sector_3)
      (fun l x => { l with duration_sector_3 := x }) true st drv v
      (decide (3 > 1)) t = st
    unfold update_lap
    rw [hgcl3]
  · unfold update_lap_duration update_lap
    rw [hgcl]
  · unfold add_segment_status
    simp only [show (decide (2 > 1)) = true from rfl]
    rw [hgcl]
  · unfold add_segment_status
    simp only [show (decide (3 > 1)) = true from rfl]
    rw [hgcl]

/-- C10 witness: one recorded lap started at `d = 0`, an update at
`t = 5000` (5 s later) changes nothing. -/
theorem c10_early_end_of_lap_update_is_discarded_witness :
    get_current_lap ctx5w { laps := [lap7w], updated := [] } 55 5000 true =
      ({ laps := [lap7w], updated := [] }, none) ∧
    update_duration_sector ctx5w { laps := [lap7w], updated := [] } 55 2 26.12 5000 =
      { laps := [lap7w], updated := [] } ∧
    update_duration_sector ctx5w { laps := [lap7w], updated := [] } 55 3 26.12 5000 =
      { laps := [lap7w], updated := [] } ∧
    update_lap_duration ctx5w { laps := [lap7w], updated := [] } 55 26.12 5000 =
      { laps := [lap7w], updated := [] } ∧
    add_segment_status ctx5w { laps := [lap7w], updated := [] } 55 2 3 (some 2048) 5000 =
      { laps := [lap7w], updated := [] } ∧
    add_segment_status ctx5w { laps := [lap7w], updated := [] } 55 3 3 (some 2048) 5000 =
      { laps := [lap7w], updated := [] } :=
  c10_early_end_of_lap_update_is_discarded ctx5w _ 55 lap7w 0 5000 26.12 3
    (some 2048) rfl rfl (by decide)

/-- C7 counterexample.  Two buffered documents with keys `(1, 2)` and
`(1, 1)`: the flush sort leaves them in buffer order because
`Document.__lt__` returns the comparison result of the first comparable
pair (`1 < 1 = False`) without recursing past the equal pair, yet
lexicographically `(1, 1) < (1, 2)`: the emitted list is not sorted
lexicographically. -/
theorem c7_counterexample_not_lexicographic :
    flush_sorted [⟨[.pint 1, .pint 2]⟩, ⟨[.pint 1, .pint 1]⟩] =
      [⟨[.pint 1, .pint 2]⟩, ⟨[.pint 1, .pint 1]⟩] ∧
    claimLexLt [PyVal.pint 1, PyVal.pint 1] [PyVal.pint 1, PyVal.pint 2] = true ∧
    document_lt [PyVal.pint 1, PyVal.pint 1] [PyVal.pint 1, PyVal.pint 2] = false := by
  refine ⟨by decide, by decide, by decide⟩

/-- C7 (amended).  The flush sort orders by `Document.__lt__`, which
decides at the first component pair the ordinary order can compare: it
returns that comparison result — an incomparable pair is skipped, but an
equal comparable pair ends the comparison with `False` instead of
passing on, so the order is not lexicographic.  Characterization:
`document_lt xs ys` holds exactly when some zipped pair `i` compares
strictly less while every earlier pair is incomparable. -/
theorem c7_document_lt_decides_at_first_comparable_pair (xs ys : List PyVal) :
    document_lt xs ys = true ↔
      ∃ (i : Nat) (a b : PyVal), (xs.zip ys)[i]? = some (a, b) ∧
        pyCmpLt a b = some true ∧
        ∀ j, j < i → ∀ a' b', (xs.zip ys)[j]? = some (a', b') →
          pyCmpLt a' b' = none := by
  induction xs generalizing ys with
  | nil =>
    simp [document_lt]
  | cons a as ih =>
    cases ys with
    | nil =>
      simp [document_lt]
    | cons b bs =>
      cases hc : pyCmpLt a b with
      | some r =>
        simp only [document_lt, hc]
        constructor
        · intro hr
          exact ⟨0, a, b, by simp, by rw [hc, hr],
            fun j hj => absurd hj (Nat.not_lt_zero j)⟩
        · rintro ⟨i, a', b', h1, h2, h3⟩
          cases i with
          | zero =>
            simp only [List.zip_cons_cons, List.getElem?_cons_zero,
              Option.some_inj, Prod.mk.injEq] at h1
            rw [← h1.1, ← h1.2] at h2
            rw [hc] at h2
            exact Option.some_inj.mp h2
          | succ k =>
            have hcontr := h3 0 (Nat.succ_pos k) a b (by simp)
            rw [hc] at hcontr
            exact Option.noConfusion hcontr
      | none =>
        simp only [document_lt, hc]
        rw [ih bs]
        constructor
        · rintro ⟨i, a', b', h1, h2, h3⟩
          refine ⟨i + 1, a', b', by simpa using h1, h2, ?_⟩
          intro j hj a2 b2 hj2
          cases j with
          | zero =>
            simp only [List.zip_cons_cons, List.getElem?_cons_zero,
              Option.some_inj, Prod.mk.injEq] at hj2
            rw [← hj2.1, ← hj2.2]
            exact hc
          | succ k =>
            exact h3 k (Nat.lt_of_succ_lt_succ hj) a2 b2 (by simpa using hj2)
        · rintro ⟨i, a', b', h1, h2, h3⟩
          cases i with
          | zero =>
            simp only [List.zip_cons_cons, List.getElem?_cons_zero,
              Option.some_inj, Prod.mk.injEq] at h1
            rw [← h1.1, ← h1.2] at h2
            rw [hc] at h2
            exact Option.noConfusion h2
          | succ k =>
            refine ⟨k, a', b', by simpa using h1, h2, ?_⟩
            intro j hj a2 b2 hj2
            exact h3 (j + 1) (Nat.succ_lt_succ hj) a2 b2 (by simpa using hj2)

/-- C6 counterexample.  A stint number appears for a driver with no
previous stint: the appended stint has `lap_start = None`, not `1` as
the claim states (`lap_start` is only filled later from
`TimingData.NumberOfLaps`). -/
theorem c6_counterexample_first_stint_lap_start_is_none :
    add_stint 1219 9161 44 1 100 ([] : DriverStints) =
      some ([(1, mkStint 1219 9161 44 1)] : DriverStints) ∧
    (mkStint 1219 9161 44 1).lap_start = none ∧
    (mkStint 1219 9161 44 1).lap_start ≠ some 1 := by
  refine ⟨by decide, by decide, by decide⟩

/-- C6 (amended).  A stint number not previously seen for a driver
appends a new stint whose `lap_start` equals the previous stint's
(possibly just corrected) `lap_end + 1` when the previous stint exists
and has `lap_end` set; when the driver has no previous stint (or its
`lap_end` is unset) the new stint's `lap_start` is unset (`None`), not
1. -/
theorem c6_add_stint_lap_start (mk sk drv n t : Int) (ds ds' : DriverStints)
    (h : add_stint mk sk drv n t ds = some ds') :
    (last_stint_key ds = none →
      ds' = ds ++ ([(n, mkStint mk sk drv n)] : DriverStints) ∧
      (mkStint mk sk drv n).lap_start = none) ∧
    (∀ kmax l e, last_stint_key ds = some kmax → stintAt ds kmax = some l →
      l.lap_end = some e → l.date_start_last_lap = none →
      ds' = ds ++ ([(n, { mkStint mk sk drv n with
        lap_start := some (e + 1), lap_end := some (e + 1) })] : DriverStints)) ∧
    (∀ kmax l e dl, last_stint_key ds = some kmax → stintAt ds kmax = some l →
      l.lap_end = some e → l.date_start_last_lap = some dl → 10000 ≤ t - dl →
      ds' = ds ++ ([(n, { mkStint mk sk drv n with
        lap_start := some (e + 1), lap_end := some (e + 1) })] : DriverStints)) ∧
    (∀ kmax l e dl, last_stint_key ds = some kmax → stintAt ds kmax = some l →
      l.lap_end = some e → l.date_start_last_lap = some dl → t - dl < 10000 →
      ds' = setStint ds kmax { l with lap_end := some (e - 1) } ++
        ([(n, { mkStint mk sk drv n with
          lap_start := some e, lap_end := some e })] : DriverStints)) ∧
    (∀ kmax l, last_stint_key ds = some kmax → stintAt ds kmax = some l →
      l.lap_end = none → l.date_start_last_lap = none →
      ds' = ds ++ ([(n, mkStint mk sk drv n)] : DriverStints)) := by
  refine ⟨?_, ?_, ?_, ?_, ?_⟩
  · intro hnone
    unfold add_stint at h
    rw [hnone] at h
    exact ⟨(Option.some_inj.mp h).symm, rfl⟩
  · intro kmax l e hk hl hle hdl
    unfold add_stint at h
    rw [hk] at h
    simp only [hl, hdl, hle] at h
    exact (Option.some_inj.mp h).symm
  · intro kmax l e dl hk hl hle hdl hge
    unfold add_stint at h
    rw [hk] at h
    simp only [hl, hdl, hle, if_neg (by omega : ¬ t - dl < 10000)] at h
    exact (Option.some_inj.mp h).symm
  · intro kmax l e dl hk hl hle hdl hlt
    unfold add_stint at h
    rw [hk] at h
    simp only [hl, hdl, hle, if_pos hlt] at h
    rw [← Option.some_inj.mp h]
    have he : e - 1 + 1 = e := by omega
    rw [he, hdl]
  · intro kmax l hk hl hle hdl
    unfold add_stint at h
    rw [hk] at h
    simp only [hl, hdl, hle] at h
    exact (Option.some_inj.mp h).symm

/-- C6 witness: the no-previous-stint case at a concrete input. -/
theorem c6_add_stint_lap_start_witness :
    ([(1, mkStint 1219 9161 44 1)] : DriverStints) =
      ([] : DriverStints) ++ ([(1, mkStint 1219 9161 44 1)] : DriverStints) ∧
    (mkStint 1219 9161 44 1).lap_start = none :=
  (c6_add_stint_lap_start 1219 9161 44 1 100 ([] : DriverStints)
    ([(1, mkStint 1219 9161 44 1)] : DriverStints) (by decide)).1 rfl

/-- C8 counterexample.  First part: processing `[c8msg]` (a dict-shaped
`Stints`) from the fresh state emits one stint document; processing the
same list again — through the same cached, stateful collection
instance, as the `lru_cache` in `get_collections` arranges — emits
nothing, because the stint already exists and no value changes.  The
`_key` of the first run's document has no counterpart in the second
run's output: the two runs do not produce the same document set.
Second part, marking the boundary of the amended no-op theorem: for
`[c8msgList]` (a list-shaped `Stints` with two entries, both mapped to
stint number 1), the replay is not a no-op either — the two entries
flip-flop the stint's compound, re-mark it, and the second run emits a
document again. -/
theorem c8_counterexample_reprocessing_differs :
    ((process_messages_stints 1219 9161 initStintsState [c8msg]).2 ≠ [] ∧
     (process_messages_stints 1219 9161
       (process_messages_stints 1219 9161 initStintsState [c8msg]).1
       [c8msg]).2 = []) ∧
    ((process_messages_stints 1219 9161 initStintsState [c8msgList]).2
       ≠ [] ∧
     (process_messages_stints 1219 9161
       (process_messages_stints 1219 9161 initStintsState [c8msgList]).1
       [c8msgList]).2 ≠ []) := by
  refine ⟨⟨by decide, by decide⟩, by decide, by decide⟩

/-! ### Dictionary lemmas for the stints state -/

theorem keysOf_setStint (ds : DriverStints) (n : Int) (s : Stint) :
    keysOf (setStint ds n s) = keysOf ds := by
  unfold keysOf setStint
  rw [List.map_map]
  apply List.map_congr_left
  intro e _
  simp only [Function.comp_apply]
  split <;> rfl

theorem mem_keysOf_cons {e : Int × Stint} {es : DriverStints} {n : Int}
    (h : n ∈ keysOf (e :: es)) (hne : e.1 ≠ n) : n ∈ keysOf es := by
  simp only [keysOf, List.map_cons, List.mem_cons] at h
  rcases h with h | h
  · exact absurd h.symm hne
  · exact h

theorem stintAt_isSome_of_mem {ds : DriverStints} {n : Int}
    (h : n ∈ keysOf ds) : ∃ s, stintAt ds n = some s := by
  induction ds with
  | nil => simp [keysOf] at h
  | cons e es ih =>
    by_cases he : e.1 = n
    · exact ⟨e.2, by rw [stintAt, List.find?_cons_of_pos _ (by simp [he])]; rfl⟩
    · rcases ih (mem_keysOf_cons h he) with ⟨s, hs⟩
      refine ⟨s, ?_⟩
      rw [stintAt, List.find?_cons_of_neg _ (by simp [he])]
      exact hs

theorem stintAt_setStint_self {ds : DriverStints} {n : Int}
    (h : n ∈ keysOf ds) (s : Stint) :
    stintAt (setStint ds n s) n = some s := by
  induction ds with
  | nil => simp [keysOf] at h
  | cons e es ih =>
    by_cases he : e.1 = n
    · show stintAt ((if (e.1 == n) = true then (e.1, s) else e) :: setStint es n s) n = some s
      rw [if_pos (by simp [he])]
      rw [stintAt, List.find?_cons_of_pos _ (by simp [he])]
      rfl
    · show stintAt ((if (e.1 == n) = true then (e.1, s) else e) :: setStint es n s) n = some s
      rw [if_neg (by simp [he])]
      rw [stintAt, List.find?_cons_of_neg _ (by simp [he])]
      exact ih (mem_keysOf_cons h he)

theorem stintAt_setStint_ne {m n : Int} (ds : DriverStints) (s : Stint)
    (h : m ≠ n) : stintAt (setStint ds n s) m = stintAt ds m := by
  induction ds with
  | nil => rfl
  | cons e es ih =>
    show stintAt ((if (e.1 == n) = true then (e.1, s) else e) :: setStint es n s) m
      = stintAt (e :: es) m
    have hnm : ¬ n = m := fun hh => h hh.symm
    by_cases he : e.1 = n
    · rw [if_pos (by simp [he])]
      rw [stintAt, List.find?_cons_of_neg _ (by simp [he, hnm]),
        show stintAt (e :: es) m = Option.map Prod.snd
          (List.find? (fun x => x.1 == m) es) from by
            rw [stintAt, List.find?_cons_of_neg _ (by simp [he, hnm])]]
      exact ih
    · rw [if_neg (by simp [he])]
      by_cases hm : e.1 = m
      · rw [stintAt, List.find?_cons_of_pos _ (by simp [hm]),
          stintAt, List.find?_cons_of_pos _ (by simp [hm])]
      · rw [stintAt, List.find?_cons_of_neg _ (by simp [hm]),
          stintAt, List.find?_cons_of_neg _ (by simp [hm])]
        exact ih

theorem stintAt_append_ne {m n : Int} (ds : DriverStints) (s : Stint)
    (h : m ≠ n) : stintAt (ds ++ [(n, s)]) m = stintAt ds m := by
  have hnm : ¬ n = m := fun hh => h hh.symm
  induction ds with
  | nil =>
    rw [List.nil_append, stintAt,
      List.find?_cons_of_neg _ (by simp [hnm])]
    rfl
  | cons e es ih =>
    by_cases hm : e.1 = m
    · rw [List.cons_append, stintAt, List.find?_cons_of_pos _ (by simp [hm]),
        stintAt, List.find?_cons_of_pos _ (by simp [hm])]
    · rw [List.cons_append, stintAt, List.find?_cons_of_neg _ (by simp [hm]),
        stintAt, List.find?_cons_of_neg _ (by simp [hm])]
      exact ih

theorem stintAt_append_self {n : Int} (ds : DriverStints) (s : Stint)
    (h : n ∉ keysOf ds) : stintAt (ds ++ [(n, s)]) n = some s := by
  induction ds with
  | nil =>
    rw [List.nil_append, stintAt, List.find?_cons_of_pos _ (by simp)]
    rfl
  | cons e es ih =>
    have he : e.1 ≠ n := by
      intro hh
      exact h (by simp [keysOf, hh])
    rw [List.cons_append, stintAt, List.find?_cons_of_neg _ (by simp [he])]
    have h2 : n ∉ keysOf es := by
      intro hh
      exact h (by simp [keysOf] at hh ⊢; exact Or.inr hh)
    exact ih h2

theorem keysOf_append (ds : DriverStints) (n : Int) (s : Stint) :
    keysOf (ds ++ [(n, s)]) = keysOf ds ++ [n] := by
  simp [keysOf]

theorem last_stint_key_mem {ds : DriverStints} {k : Int}
    (h : last_stint_key ds = some k) : k ∈ keysOf ds :=
  List.max?_mem (fun x y => max_choice x y) h

/-! ### Behavior of `add_stint` -/

theorem add_stint_keys {mk sk drv n t : Int} {ds ds1 : DriverStints}
    (h : add_stint mk sk drv n t ds = some ds1) :
    keysOf ds1 = keysOf ds ++ [n] := by
  unfold add_stint at h
  cases hk : last_stint_key ds with
  | none =>
    rw [hk] at h
    rw [← Option.some_inj.mp h, keysOf_append]
  | some kmax =>
    rw [hk] at h
    cases hl : stintAt ds kmax with
    | none =>
      simp only [hl] at h
      rw [← Option.some_inj.mp h, keysOf_append]
    | some l =>
      cases hdl : l.date_start_last_lap with
      | none =>
        simp only [hl, hdl] at h
        rw [← Option.some_inj.mp h, keysOf_append]
      | some dl =>
        by_cases hlt : t - dl < 10000
        · cases hle : l.lap_end with
          | none =>
            simp only [hl, hdl, if_pos hlt, hle] at h
            exact Option.noConfusion h
          | some e =>
            simp only [hl, hdl, if_pos hlt, hle] at h
            rw [← Option.some_inj.mp h, keysOf_append, keysOf_setStint]
        · simp only [hl, hdl, if_neg hlt] at h
          rw [← Option.some_inj.mp h, keysOf_append]

theorem add_stint_facts_ne {mk sk drv n t m : Int} {ds ds1 : DriverStints}
    (hne : m ≠ n) (h : add_stint mk sk drv n t ds = some ds1) :
    (stintAt ds1 m).map (fun s => s.compound) =
      (stintAt ds m).map (fun s => s.compound) ∧
    (stintAt ds1 m).map (fun s => s.tyre_age_at_start) =
      (stintAt ds m).map (fun s => s.tyre_age_at_start) := by
  unfold add_stint at h
  cases hk : last_stint_key ds with
  | none =>
    rw [hk] at h
    rw [← Option.some_inj.mp h, stintAt_append_ne _ _ hne]
    exact ⟨rfl, rfl⟩
  | some kmax =>
    rw [hk] at h
    cases hl : stintAt ds kmax with
    | none =>
      simp only [hl] at h
      rw [← Option.some_inj.mp h, stintAt_append_ne _ _ hne]
      exact ⟨rfl, rfl⟩
    | some l =>
      cases hdl : l.date_start_last_lap with
      | none =>
        simp only [hl, hdl] at h
        rw [← Option.some_inj.mp h, stintAt_append_ne _ _ hne]
        exact ⟨rfl, rfl⟩
      | some dl =>
        by_cases hlt : t - dl < 10000
        · cases hle : l.lap_end with
          | none =>
            simp only [hl, hdl, if_pos hlt, hle] at h
            exact Option.noConfusion h
          | some e =>
            simp only [hl, hdl, if_pos hlt, hle] at h
            rw [← Option.some_inj.mp h, stintAt_append_ne _ _ hne]
            by_cases hmk : m = kmax
            · subst hmk
              rw [stintAt_setStint_self (last_stint_key_mem hk), hl]
              exact ⟨rfl, rfl⟩
            · rw [stintAt_setStint_ne _ _ hmk]
              exact ⟨rfl, rfl⟩
        · simp only [hl, hdl, if_neg hlt] at h
          rw [← Option.some_inj.mp h, stintAt_append_ne _ _ hne]
          exact ⟨rfl, rfl⟩

/-! ### Behavior of `update_stint_field` -/

theorem usf_keys {α : Type} [DecidableEq α] (get : Stint → Option α)
    (set : Stint → Option α → Stint) (ds : DriverStints) (n : Int) (v : α) :
    keysOf (update_stint_field get set ds n v).1 = keysOf ds := by
  unfold update_stint_field
  cases hs : stintAt ds n with
  | none => rfl
  | some s =>
    dsimp only
    by_cases hc : get s = some v
    · rw [if_pos hc]
    · rw [if_neg hc]
      exact keysOf_setStint ds n (set s (some v))

theorem usf_stintAt_ne {α : Type} [DecidableEq α] (get : Stint → Option α)
    (set : Stint → Option α → Stint) (ds : DriverStints) {m n : Int} (v : α)
    (hne : m ≠ n) :
    stintAt (update_stint_field get set ds n v).1 m = stintAt ds m := by
  unfold update_stint_field
  cases hs : stintAt ds n with
  | none => rfl
  | some s =>
    dsimp only
    by_cases hc : get s = some v
    · rw [if_pos hc]
    · rw [if_neg hc]
      exact stintAt_setStint_ne ds (set s (some v)) hne

theorem usf_stintAt_self {α : Type} [DecidableEq α] (get : Stint → Option α)
    (set : Stint → Option α → Stint) {ds : DriverStints} {n : Int} (v : α)
    {s : Stint} (h : stintAt ds n = some s) (hmem : n ∈ keysOf ds) :
    stintAt (update_stint_field get set ds n v).1 n =
      some (if get s = some v then s else set s (some v)) := by
  unfold update_stint_field
  rw [h]
  dsimp only
  by_cases hc : get s = some v
  · rw [if_pos hc, if_pos hc]
    exact h
  · rw [if_neg hc, if_neg hc]
    exact stintAt_setStint_self hmem (set s (some v))

theorem mem_keysOf_of_stintAt {ds : DriverStints} {n : Int} {s : Stint}
    (h : stintAt ds n = some s) : n ∈ keysOf ds := by
  unfold stintAt at h
  cases hf : ds.find? (fun e => e.1 == n) with
  | none =>
    rw [hf] at h
    exact Option.noConfusion h
  | some e =>
    have h1 := List.find?_some hf
    have h2 := List.mem_of_find?_eq_some hf
    have h3 : e.1 = n := by simpa using h1
    exact h3 ▸ List.mem_map_of_mem Prod.fst h2

/-! ### Behavior of the entry steps -/

theorem compound_step_keys (ds : DriverStints) (n : Int) (f : StintFields) :
    keysOf (compound_step ds n f).1 = keysOf ds := by
  unfold compound_step
  cases f.compound with
  | none => rfl
  | some c => exact usf_keys _ _ ds n c

theorem compound_step_ne {m n : Int} (ds : DriverStints) (f : StintFields)
    (hne : m ≠ n) :
    stintAt (compound_step ds n f).1 m = stintAt ds m := by
  unfold compound_step
  cases f.compound with
  | none => rfl
  | some c => exact usf_stintAt_ne _ _ ds c hne

theorem compound_step_post {ds : DriverStints} {n : Int} {f : StintFields}
    {c : String} (hc : f.compound = some c) {s : Stint}
    (hs : stintAt ds n = some s) :
    (stintAt (compound_step ds n f).1 n).map (fun x => x.compound) =
      some (some c) := by
  unfold compound_step
  rw [hc]
  dsimp only [update_stint_compound]
  rw [usf_stintAt_self _ _ c hs (mem_keysOf_of_stintAt hs)]
  by_cases he : s.compound = some c
  · rw [if_pos he]
    simp [he]
  · rw [if_neg he]
    simp

theorem compound_step_pres_tyre (ds : DriverStints) (n : Int)
    (f : StintFields) :
    (stintAt (compound_step ds n f).1 n).map (fun x => x.tyre_age_at_start) =
      (stintAt ds n).map (fun x => x.tyre_age_at_start) := by
  unfold compound_step
  cases f.compound with
  | none => rfl
  | some c =>
    dsimp only [update_stint_compound]
    cases hs : stintAt ds n with
    | none =>
      have hid : (update_stint_field (fun s => s.compound)
          (fun s x => { s with compound := x }) ds n c).1 = ds := by
        unfold update_stint_field
        rw [hs]
      rw [hid, hs]
    | some s =>
      rw [usf_stintAt_self _ _ c hs (mem_keysOf_of_stintAt hs)]
      by_cases he : s.compound = some c
      · rw [if_pos he]
      · rw [if_neg he]
        simp

theorem tyre_step_keys (ds : DriverStints) (n : Int) (f : StintFields) :
    keysOf (tyre_step ds n f).1 = keysOf ds := by
  unfold tyre_step
  cases f.total_laps with
  | none => rfl
  | some tl =>
    cases stintAt ds n with
    | none => rfl
    | some s =>
      dsimp only
      by_cases he : s.tyre_age_at_start = none
      · rw [if_pos he]
        exact usf_keys _ _ ds n tl
      · rw [if_neg he]

theorem tyre_step_ne {m n : Int} (ds : DriverStints) (f : StintFields)
    (hne : m ≠ n) :
    stintAt (tyre_step ds n f).1 m = stintAt ds m := by
  unfold tyre_step
  cases f.total_laps with
  | none => rfl
  | some tl =>
    cases stintAt ds n with
    | none => rfl
    | some s =>
      dsimp only
      by_cases he : s.tyre_age_at_start = none
      · rw [if_pos he]
        exact usf_stintAt_ne _ _ ds tl hne
      · rw [if_neg he]

theorem tyre_step_post {ds : DriverStints} {n : Int} {f : StintFields}
    (hc : f.total_laps.isSome = true) {s : Stint}
    (hs : stintAt ds n = some s) :
    ∃ y, (stintAt (tyre_step ds n f).1 n).map (fun x => x.tyre_age_at_start) =
      some (some y) := by
  unfold tyre_step
  cases hf : f.total_laps with
  | none => rw [hf] at hc; exact absurd hc (by simp)
  | some tl =>
    rw [hs]
    dsimp only
    by_cases he : s.tyre_age_at_start = none
    · rw [if_pos he]
      dsimp only [update_stint_tyre]
      rw [usf_stintAt_self _ _ tl hs (mem_keysOf_of_stintAt hs)]
      by_cases h2 : s.tyre_age_at_start = some tl
      · rw [h2] at he
        exact Option.noConfusion he
      · rw [if_neg h2]
        exact ⟨tl, by simp⟩
    · rw [if_neg he]
      cases hy : s.tyre_age_at_start with
      | none => exact absurd hy he
      | some y => exact ⟨y, by rw [hs]; simp [hy]⟩

theorem tyre_step_pres_compound (ds : DriverStints) (n : Int)
    (f : StintFields) :
    (stintAt (tyre_step ds n f).1 n).map (fun x => x.compound) =
      (stintAt ds n).map (fun x => x.compound) := by
  unfold tyre_step
  cases f.total_laps with
  | none => rfl
  | some tl =>
    cases hs : stintAt ds n with
    | none => rw [hs]
    | some s =>
      dsimp only
      by_cases he : s.tyre_age_at_start = none
      · rw [if_pos he]
        dsimp only [update_stint_tyre]
        rw [usf_stintAt_self _ _ tl hs (mem_keysOf_of_stintAt hs)]
        by_cases h2 : s.tyre_age_at_start = some tl
        · rw [if_pos h2]
        · rw [if_neg h2]
          simp
      · rw [if_neg he]
        simp [hs]

/-- Core of `pse_entry_done`: the update part after the stint exists. -/
theorem pse_entry_done_aux {n : Int} {d : StintEntryData}
    {dsA ds1 : DriverStints} {ms : List Int}
    (h : (match d with
      | none => some (dsA, ([] : List Int))
      | some f =>
        let r2 := compound_step dsA n f
        let r3 := tyre_step r2.1 n f
        some (r3.1, r2.2 ++ r3.2)) = some (ds1, ms))
    (hmemA : n ∈ keysOf dsA) :
    EntryDone ds1 (n, d) := by
  cases d with
  | none =>
    simp only [Option.some_inj, Prod.mk.injEq] at h
    refine ⟨h.1 ▸ hmemA, ?_⟩
    intro f hf
    exact Option.noConfusion hf
  | some f =>
    simp only [Option.some_inj, Prod.mk.injEq] at h
    have hds1 : ds1 = (tyre_step (compound_step dsA n f).1 n f).1 := h.1.symm
    constructor
    · rw [hds1, tyre_step_keys, compound_step_keys]
      exact hmemA
    · intro f' hf'
      have hff : f' = f := Option.some_inj.mp hf'.symm
      rw [hff]
      constructor
      · intro c hc
        rw [hds1, tyre_step_pres_compound]
        rcases stintAt_isSome_of_mem hmemA with ⟨s, hs⟩
        exact compound_step_post hc hs
      · intro htl
        have hmem2 : n ∈ keysOf (compound_step dsA n f).1 := by
          rw [compound_step_keys]
          exact hmemA
        rcases stintAt_isSome_of_mem hmem2 with ⟨s, hs⟩
        rw [hds1]
        exact tyre_step_post htl hs

/-- Processing one entry establishes the invariant for it. -/
theorem pse_entry_done {mk sk drv t n : Int} {d : StintEntryData}
    {ds ds1 : DriverStints} {ms : List Int}
    (h : process_stint_entry mk sk drv t ds (n, d) = some (ds1, ms)) :
    EntryDone ds1 (n, d) := by
  simp only [process_stint_entry] at h
  by_cases hmem : n ∈ keysOf ds
  · rw [if_pos hmem] at h
    exact pse_entry_done_aux h hmem
  · rw [if_neg hmem] at h
    cases ha : add_stint mk sk drv n t ds with
    | none =>
      rw [ha] at h
      exact Option.noConfusion h
    | some dsA =>
      rw [ha] at h
      have hmemA : n ∈ keysOf dsA := by
        rw [add_stint_keys ha]
        simp
      exact pse_entry_done_aux h hmemA

/-- Core of `pse_preserves`: the update part. -/
theorem pse_preserves_aux {m n : Int} {d : StintEntryData}
    {dsA ds1 : DriverStints} {ms : List Int} (hne : m ≠ n)
    (h : (match d with
      | none => some (dsA, ([] : List Int))
      | some f =>
        let r2 := compound_step dsA n f
        let r3 := tyre_step r2.1 n f
        some (r3.1, r2.2 ++ r3.2)) = some (ds1, ms)) :
    keysOf ds1 = keysOf dsA ∧
    (stintAt ds1 m).map (fun x => x.compound) =
      (stintAt dsA m).map (fun x => x.compound) ∧
    (stintAt ds1 m).map (fun x => x.tyre_age_at_start) =
      (stintAt dsA m).map (fun x => x.tyre_age_at_start) := by
  cases d with
  | none =>
    simp only [Option.some_inj, Prod.mk.injEq] at h
    rw [← h.1]
    exact ⟨rfl, rfl, rfl⟩
  | some f =>
    simp only [Option.some_inj, Prod.mk.injEq] at h
    rw [← h.1]
    refine ⟨?_, ?_, ?_⟩
    · rw [tyre_step_keys, compound_step_keys]
    · rw [tyre_step_ne _ _ hne, compound_step_ne _ _ hne]
    · rw [tyre_step_ne _ _ hne, compound_step_ne _ _ hne]

/-- Processing an entry with a different stint number preserves the
invariant facts at `m`. -/
theorem pse_preserves {mk sk drv t m n : Int} {d : StintEntryData}
    {ds ds1 : DriverStints} {ms : List Int} (hne : m ≠ n)
    (h : process_stint_entry mk sk drv t ds (n, d) = some (ds1, ms)) :
    (m ∈ keysOf ds1 ↔ m ∈ keysOf ds) ∧
    (stintAt ds1 m).map (fun x => x.compound) =
      (stintAt ds m).map (fun x => x.compound) ∧
    (stintAt ds1 m).map (fun x => x.tyre_age_at_start) =
      (stintAt ds m).map (fun x => x.tyre_age_at_start) := by
  simp only [process_stint_entry] at h
  by_cases hmem : n ∈ keysOf ds
  · rw [if_pos hmem] at h
    rcases pse_preserves_aux hne h with ⟨h1, h2, h3⟩
    exact ⟨h1 ▸ Iff.rfl, h2, h3⟩
  · rw [if_neg hmem] at h
    cases ha : add_stint mk sk drv n t ds with
    | none =>
      rw [ha] at h
      exact Option.noConfusion h
    | some dsA =>
      rw [ha] at h
      rcases pse_preserves_aux hne h with ⟨h1, h2, h3⟩
      rcases add_stint_facts_ne hne ha with ⟨h4, h5⟩
      refine ⟨?_, h2.trans h4, h3.trans h5⟩
      rw [h1, add_stint_keys ha]
      constructor
      · intro hm
        rcases List.mem_append.mp hm with hm | hm
        · exact hm
        · exact absurd (List.mem_singleton.mp hm) hne
      · intro hm
        exact List.mem_append.mpr (Or.inl hm)

/-- An entry already applied is processed as a no-op. -/
theorem pse_of_entry_done {mk sk drv t n : Int} {d : StintEntryData}
    {ds : DriverStints} (hd : EntryDone ds (n, d)) :
    process_stint_entry mk sk drv t ds (n, d) = some (ds, []) := by
  simp only [process_stint_entry]
  rcases hd with ⟨hmem, hfacts⟩
  rw [if_pos hmem]
  cases d with
  | none => rfl
  | some f =>
    rcases hfacts f rfl with ⟨hcomp, htyre⟩
    have h2 : compound_step ds n f = (ds, []) := by
      unfold compound_step
      cases hc : f.compound with
      | none => rfl
      | some c =>
        have := hcomp c hc
        cases hs : stintAt ds n with
        | none => rw [hs] at this; exact Option.noConfusion this
        | some s =>
          rw [hs] at this
          have hsc : s.compound = some c := by
            simpa using this
          dsimp only [update_stint_compound]
          unfold update_stint_field
          rw [hs]
          dsimp only
          rw [if_pos hsc]
          rfl
    have h3 : tyre_step ds n f = (ds, []) := by
      unfold tyre_step
      cases ht : f.total_laps with
      | none => rfl
      | some tl =>
        rcases htyre (by simp [ht]) with ⟨y, hy⟩
        cases hs : stintAt ds n with
        | none => rw [hs] at hy
        | some s =>
          rw [hs] at hy
          have hsy : s.tyre_age_at_start = some y := by
            simpa using hy
          dsimp only
          rw [if_neg (by rw [hsy]; exact fun hh => Option.noConfusion hh)]
    dsimp only
    rw [h2]
    dsimp only
    rw [h3]
    exact rfl

/-- `EntryDone` survives processing an entry with a different stint
number. -/
theorem entry_done_preserved {mk sk drv t m n : Int} {dm d : StintEntryData}
    {ds ds1 : DriverStints} {ms : List Int} (hne : m ≠ n)
    (hdone : EntryDone ds (m, dm))
    (h : process_stint_entry mk sk drv t ds (n, d) = some (ds1, ms)) :
    EntryDone ds1 (m, dm) := by
  rcases pse_preserves hne h with ⟨hk, hcomp, htyre⟩
  rcases hdone with ⟨hmem, hf⟩
  refine ⟨hk.mpr hmem, ?_⟩
  intro f hfm
  rcases hf f hfm with ⟨h1, h2⟩
  refine ⟨fun c hc => by rw [hcomp]; exact h1 c hc, fun ht => ?_⟩
  rcases h2 ht with ⟨y, hy⟩
  exact ⟨y, by rw [htyre]; exact hy⟩

/-- `EntryDone` survives the rest of the entry loop when the remaining
entries carry different stint numbers. -/
theorem go_entries_pres_done {mk sk drv t m : Int} {dm : StintEntryData}
    {ds : DriverStints} {es : List (Int × StintEntryData)}
    (hnm : m ∉ es.map Prod.fst) (hdone : EntryDone ds (m, dm)) :
    EntryDone (go_entries mk sk drv t ds es).1 (m, dm) := by
  induction es generalizing ds with
  | nil => exact hdone
  | cons e es ih =>
    obtain ⟨n, d⟩ := e
    have hm1 : m ∉ es.map Prod.fst := fun hh => hnm (by simp [hh])
    have hne : m ≠ n := fun hh => hnm (by simp [hh])
    simp only [go_entries]
    cases hp : process_stint_entry mk sk drv t ds (n, d) with
    | none => exact hdone
    | some p =>
      obtain ⟨ds2, ms⟩ := p
      exact ih hm1 (entry_done_preserved hne hdone hp)

/-- After a successful entry loop over entries with distinct stint
numbers, every entry is fully applied to the final state. -/
theorem go_entries_done {mk sk drv t : Int} {ds ds1 : DriverStints}
    {ms : List Int} {es : List (Int × StintEntryData)}
    (hnd : (es.map Prod.fst).Nodup)
    (h : go_entries mk sk drv t ds es = (ds1, ms, true)) :
    ∀ e ∈ es, EntryDone ds1 e := by
  induction es generalizing ds ms with
  | nil => intro e he; exact absurd he (List.not_mem_nil e)
  | cons e es ih =>
    obtain ⟨n, d⟩ := e
    simp only [go_entries] at h
    have hndc : (n :: es.map Prod.fst).Nodup := by
      simpa only [List.map_cons] using hnd
    rcases List.nodup_cons.mp hndc with ⟨hn, hnd2⟩
    cases hp : process_stint_entry mk sk drv t ds (n, d) with
    | none =>
      rw [hp] at h
      have hc : false = true := congrArg (fun x => x.2.2) h
      exact Bool.noConfusion hc
    | some p =>
      obtain ⟨ds2, ms0⟩ := p
      rw [hp] at h
      have h1 : (go_entries mk sk drv t ds2 es).1 = ds1 :=
        congrArg (fun x => x.1) h
      have h3 : (go_entries mk sk drv t ds2 es).2.2 = true :=
        congrArg (fun x => x.2.2) h
      have heq : go_entries mk sk drv t ds2 es =
          (ds1, (go_entries mk sk drv t ds2 es).2.1, true) := by
        rw [← h1, ← h3]
      intro e2 he2
      rcases List.mem_cons.mp he2 with he2 | he2
      · subst he2
        have hdd :=
          @go_entries_pres_done mk sk drv t n d ds2 es hn (pse_entry_done hp)
        rw [h1] at hdd
        exact hdd
      · exact ih hnd2 heq e2 he2

/-- The entry loop is the identity (with no marks and no raise) on a
state to which every entry is already applied. -/
theorem go_entries_of_done {mk sk drv t : Int} {ds : DriverStints}
    {es : List (Int × StintEntryData)}
    (hd : ∀ e ∈ es, EntryDone ds e) :
    go_entries mk sk drv t ds es = (ds, [], true) := by
  induction es with
  | nil => rfl
  | cons e es ih =>
    obtain ⟨n, d⟩ := e
    have h1 : process_stint_entry mk sk drv t ds (n, d) = some (ds, []) :=
      pse_of_entry_done (hd (n, d) (List.mem_cons_self _ _))
    simp only [go_entries]
    rw [h1]
    dsimp only
    rw [ih (fun e2 he2 => hd e2 (List.mem_cons_of_mem _ he2))]
    exact rfl

/-! ### Reprocessing a `TimingAppData` message -/

theorem parseEntries_of_falsy {shape : StintsShape}
    (h : shapeTruthy shape = false) : parseEntries shape = [] := by
  cases shape with
  | slist l =>
    cases l with
    | nil => rfl
    | cons a l => simp [shapeTruthy] at h
  | sdict l =>
    cases l with
    | nil => rfl
    | cons a l => simp [shapeTruthy] at h

/-- A `TimingAppData` line leaves the dicts of the other drivers
untouched. -/
theorem ta_line_stints_other (mk sk t drv d : Int)
    (sh : Option StintsShape) (st : SState) (hne : d ≠ drv) :
    (process_ta_line mk sk t st (drv, sh)).1.stints d = st.stints d := by
  cases sh with
  | none => rfl
  | some shape =>
    simp only [process_ta_line]
    by_cases ht : shapeTruthy shape = true
    · rw [if_pos ht]
      exact Function.update_noteq hne _ _
    · rw [if_neg ht]

/-- A `TimingAppData` line whose entries are all applied to the current
state is reprocessed as a strict no-op. -/
theorem ta_line_of_done {mk sk t drv : Int} {sh : Option StintsShape}
    {st : SState}
    (hd : ∀ shape, sh = some shape →
      ∀ e ∈ parseEntries shape, EntryDone (st.stints drv) e) :
    process_ta_line mk sk t st (drv, sh) = (st, true) := by
  cases sh with
  | none => rfl
  | some shape =>
    simp only [process_ta_line]
    by_cases ht : shapeTruthy shape = true
    · rw [if_pos ht]
      have hgo := @go_entries_of_done mk sk drv t (st.stints drv)
        (parseEntries shape) (hd shape rfl)
      rw [hgo]
      dsimp only
      rw [List.foldl_nil, Function.update_eq_self]
    · rw [if_neg ht]

/-- After a successful `TimingAppData` line whose stint numbers are
distinct, every entry of the line is applied to the resulting dict of
its driver. -/
theorem ta_line_done_facts {mk sk t drv : Int} {shape : StintsShape}
    {st st2 : SState}
    (hnd : ((parseEntries shape).map Prod.fst).Nodup)
    (hp : process_ta_line mk sk t st (drv, some shape) = (st2, true)) :
    ∀ e ∈ parseEntries shape, EntryDone (st2.stints drv) e := by
  simp only [process_ta_line] at hp
  by_cases ht : shapeTruthy shape = true
  · rw [if_pos ht] at hp
    have h1 : (go_entries mk sk drv t (st.stints drv)
        (parseEntries shape)).2.2 = true := congrArg (fun x => x.2) hp
    have h2a : Function.update st.stints drv
        (go_entries mk sk drv t (st.stints drv) (parseEntries shape)).1 drv
        = st2.stints drv := congrArg (fun x => x.1.stints drv) hp
    have h2 : st2.stints drv =
        (go_entries mk sk drv t (st.stints drv) (parseEntries shape)).1 :=
      h2a.symm.trans (Function.update_same _ _ _)
    have hgo : go_entries mk sk drv t (st.stints drv) (parseEntries shape) =
        ((go_entries mk sk drv t (st.stints drv) (parseEntries shape)).1,
         (go_entries mk sk drv t (st.stints drv) (parseEntries shape)).2.1,
         true) := by
      rw [← h1]
    intro e he
    rw [h2]
    exact go_entries_done hnd hgo e he
  · rw [if_neg ht] at hp
    intro e he
    rw [parseEntries_of_falsy (by simpa using ht)] at he
    exact absurd he (List.not_mem_nil e)

/-- The `TimingAppData` line loop leaves the dicts of unmentioned
drivers untouched. -/
theorem go_ta_lines_stints_other (mk sk t d : Int)
    (ls : List (Int × Option StintsShape)) (st : SState)
    (hd : d ∉ ls.map Prod.fst) :
    (go_ta_lines mk sk t st ls).1.stints d = st.stints d := by
  induction ls generalizing st with
  | nil => rfl
  | cons l ls ih =>
    obtain ⟨drv, sh⟩ := l
    have hne : d ≠ drv := fun hh => hd (by simp [hh])
    have hd2 : d ∉ ls.map Prod.fst := fun hh => hd (by simp [hh])
    simp only [go_ta_lines]
    cases hp : process_ta_line mk sk t st (drv, sh) with
    | mk st1 flag =>
      have hst1 : st1.stints d = st.stints d := by
        have := ta_line_stints_other mk sk t drv d sh st hne
        rw [hp] at this
        exact this
      cases flag with
      | false => exact hst1
      | true => exact (ih st1 hd2).trans hst1

/-- A successful `TimingAppData` line pass is replayed as a no-op from
any state that agrees with the final state on the drivers of the
lines. -/
theorem ta_lines_pass2 {mk sk t : Int}
    {lines : List (Int × Option StintsShape)} {st st1 stF : SState}
    (hnd : (lines.map Prod.fst).Nodup)
    (hend : ∀ p ∈ lines, ∀ shape, p.2 = some shape →
      ((parseEntries shape).map Prod.fst).Nodup)
    (h : go_ta_lines mk sk t st lines = (st1, true))
    (hagree : ∀ p ∈ lines, stF.stints p.1 = st1.stints p.1) :
    go_ta_lines mk sk t stF lines = (stF, true) := by
  induction lines generalizing st with
  | nil => rfl
  | cons l ls ih =>
    obtain ⟨drv, sh⟩ := l
    have hndc : (drv :: ls.map Prod.fst).Nodup := by
      simpa only [List.map_cons] using hnd
    rcases List.nodup_cons.mp hndc with ⟨hdrv, hnd2⟩
    simp only [go_ta_lines] at h ⊢
    cases hp : process_ta_line mk sk t st (drv, sh) with
    | mk st2 flag =>
      rw [hp] at h
      cases flag with
      | false =>
        have hc : false = true := congrArg (fun x => x.2) h
        exact Bool.noConfusion hc
      | true =>
        have hrest : go_ta_lines mk sk t st2 ls = (st1, true) := h
        have hdone : ∀ shape, sh = some shape →
            ∀ e ∈ parseEntries shape, EntryDone (stF.stints drv) e := by
          intro shape hsh e he
          rw [hsh] at hp
          have hfacts := ta_line_done_facts
            (hend (drv, sh) (List.mem_cons_self _ _) shape hsh) hp
          have hloc0 := go_ta_lines_stints_other mk sk t drv ls st2 hdrv
          rw [hrest] at hloc0
          have hloc : st1.stints drv = st2.stints drv := hloc0
          rw [hagree (drv, sh) (List.mem_cons_self _ _), hloc]
          exact hfacts e he
        rw [ta_line_of_done hdone]
        exact ih hnd2
          (fun p hp2 => hend p (List.mem_cons_of_mem _ hp2)) hrest
          (fun p hp2 => hagree p (List.mem_cons_of_mem _ hp2))

/-! ### Reprocessing a `TimingData` message -/

theorem isEmpty_false_of_ne_nil {α : Type} {l : List α} (h : l ≠ []) :
    l.isEmpty = false := by
  cases l with
  | nil => exact absurd rfl h
  | cons a l => rfl

theorem ne_nil_of_keysOf_eq {l l2 : DriverStints}
    (h : keysOf l = keysOf l2) (h2 : l2 ≠ []) : l ≠ [] := by
  cases l2 with
  | nil => exact absurd rfl h2
  | cons e es =>
    cases l with
    | nil => exact absurd h (by simp [keysOf])
    | cons f fs => exact List.cons_ne_nil f fs

theorem get_last_stint_isSome {ds : DriverStints} (h : ds ≠ []) :
    ∃ s, get_last_stint ds = some s := by
  cases ds with
  | nil => exact absurd rfl h
  | cons e es =>
    have hk : last_stint_key (e :: es) =
        some (List.foldl max e.1 (keysOf es)) := rfl
    rcases stintAt_isSome_of_mem (last_stint_key_mem hk) with ⟨s, hs⟩
    refine ⟨s, ?_⟩
    unfold get_last_stint
    rw [hk]
    exact hs

/-- The driver dict after the ensure-first-stint step is never empty. -/
theorem ensure_nonempty (mk sk drv t : Int) (ds : DriverStints) :
    (if ds.isEmpty then (add_stint mk sk drv 1 t ds).getD ds else ds)
      ≠ [] := by
  cases ds with
  | nil => exact List.cons_ne_nil _ _
  | cons e es => exact List.cons_ne_nil _ _

theorem stint_eta_lap_start {u : Stint} {x : Option Int}
    (h : u.lap_start = x) : { u with lap_start := x } = u := by
  cases u
  cases h
  rfl

theorem stint_eta_lap_end {u : Stint} {x : Option Int}
    (h : u.lap_end = x) : { u with lap_end := x } = u := by
  cases u
  cases h
  rfl

theorem stint_eta_dsl {u : Stint} {x : Option Int}
    (h : u.date_start_last_lap = x) :
    { u with date_start_last_lap := x } = u := by
  cases u
  cases h
  rfl

theorem usf_of_stintAt_none {α : Type} [DecidableEq α]
    (get : Stint → Option α) (set : Stint → Option α → Stint)
    {ds : DriverStints} {n : Int} (v : α) (h : stintAt ds n = none) :
    update_stint_field get set ds n v = (ds, false) := by
  unfold update_stint_field
  rw [h]

theorem usf_of_get_eq {α : Type} [DecidableEq α] (get : Stint → Option α)
    (set : Stint → Option α → Stint) {ds : DriverStints} {n : Int} {v : α}
    {s : Stint} (h : stintAt ds n = some s) (he : get s = some v) :
    update_stint_field get set ds n v = (ds, false) := by
  unfold update_stint_field
  rw [h]
  dsimp only
  rw [if_pos he]

theorem uls_noop_none {ds : DriverStints} {n : Int} (v : Int)
    (h : stintAt ds n = none) :
    update_stint_lap_start ds n v = (ds, false) :=
  usf_of_stintAt_none _ _ v h

theorem uls_noop_eq {ds : DriverStints} {n v : Int} {u : Stint}
    (h : stintAt ds n = some u) (he : u.lap_start = some v) :
    update_stint_lap_start ds n v = (ds, false) :=
  usf_of_get_eq _ _ h he

theorem ule_noop_none {ds : DriverStints} {n : Int} (v : Int)
    (h : stintAt ds n = none) :
    update_stint_lap_end ds n v = (ds, false) :=
  usf_of_stintAt_none _ _ v h

theorem ule_noop_eq {ds : DriverStints} {n v : Int} {u : Stint}
    (h : stintAt ds n = some u) (he : u.lap_end = some v) :
    update_stint_lap_end ds n v = (ds, false) :=
  usf_of_get_eq _ _ h he

theorem uld_noop_none {ds : DriverStints} {n : Int} (v : Int)
    (h : stintAt ds n = none) :
    update_stint_dsl ds n v = (ds, false) :=
  usf_of_stintAt_none _ _ v h

theorem uld_noop_eq {ds : DriverStints} {n v : Int} {u : Stint}
    (h : stintAt ds n = some u) (he : u.date_start_last_lap = some v) :
    update_stint_dsl ds n v = (ds, false) :=
  usf_of_get_eq _ _ h he

theorem uls_keys (ds : DriverStints) (n v : Int) :
    keysOf (update_stint_lap_start ds n v).1 = keysOf ds :=
  usf_keys _ _ ds n v

theorem ule_keys (ds : DriverStints) (n v : Int) :
    keysOf (update_stint_lap_end ds n v).1 = keysOf ds :=
  usf_keys _ _ ds n v

theorem uld_keys (ds : DriverStints) (n v : Int) :
    keysOf (update_stint_dsl ds n v).1 = keysOf ds :=
  usf_keys _ _ ds n v

theorem uls_at_ne (ds : DriverStints) {m n : Int} (v : Int) (hne : m ≠ n) :
    stintAt (update_stint_lap_start ds n v).1 m = stintAt ds m :=
  usf_stintAt_ne _ _ ds v hne

theorem ule_at_ne (ds : DriverStints) {m n : Int} (v : Int) (hne : m ≠ n) :
    stintAt (update_stint_lap_end ds n v).1 m = stintAt ds m :=
  usf_stintAt_ne _ _ ds v hne

theorem uld_at_ne (ds : DriverStints) {m n : Int} (v : Int) (hne : m ≠ n) :
    stintAt (update_stint_dsl ds n v).1 m = stintAt ds m :=
  usf_stintAt_ne _ _ ds v hne

theorem uls_at_self {ds : DriverStints} {n : Int} (v : Int) {u : Stint}
    (h : stintAt ds n = some u) :
    stintAt (update_stint_lap_start ds n v).1 n =
      some { u with lap_start := some v } := by
  have h0 := usf_stintAt_self (fun x => x.lap_start)
    (fun x y => { x with lap_start := y }) v h (mem_keysOf_of_stintAt h)
  by_cases he : u.lap_start = some v
  · rw [if_pos he] at h0
    exact h0.trans (congrArg some (stint_eta_lap_start he).symm)
  · rw [if_neg he] at h0
    exact h0

theorem ule_at_self {ds : DriverStints} {n : Int} (v : Int) {u : Stint}
    (h : stintAt ds n = some u) :
    stintAt (update_stint_lap_end ds n v).1 n =
      some { u with lap_end := some v } := by
  have h0 := usf_stintAt_self (fun x => x.lap_end)
    (fun x y => { x with lap_end := y }) v h (mem_keysOf_of_stintAt h)
  by_cases he : u.lap_end = some v
  · rw [if_pos he] at h0
    exact h0.trans (congrArg some (stint_eta_lap_end he).symm)
  · rw [if_neg he] at h0
    exact h0

theorem uld_at_self {ds : DriverStints} {n : Int} (v : Int) {u : Stint}
    (h : stintAt ds n = some u) :
    stintAt (update_stint_dsl ds n v).1 n =
      some { u with date_start_last_lap := some v } := by
  have h0 := usf_stintAt_self (fun x => x.date_start_last_lap)
    (fun x y => { x with date_start_last_lap := y }) v h
    (mem_keysOf_of_stintAt h)
  by_cases he : u.date_start_last_lap = some v
  · rw [if_pos he] at h0
    exact h0.trans (congrArg some (stint_eta_dsl he).symm)
  · rw [if_neg he] at h0
    exact h0

theorem fst_ite_pair {c : Prop} [Decidable c] (a b : DriverStints)
    (x y : List Int) :
    (if c then (a, x) else (b, y)).1 = if c then a else b := by
  by_cases h : c
  · rw [if_pos h, if_pos h]
  · rw [if_neg h, if_neg h]

/-- The `lap_start`/`lap_end`/`_date_start_last_lap` update chain of a
`TimingData` line establishes `TdDone`. -/
theorem td_done_of_chain (D1 : DriverStints) (s : Stint) (nol t : Int)
    (h1 : D1 ≠ []) (hlast : get_last_stint D1 = some s) :
    TdDone nol t
      (update_stint_dsl
        (update_stint_lap_end
          (if s.lap_start = none
           then (update_stint_lap_start D1 s.stint_number nol).1
           else D1)
          s.stint_number nol).1
        s.stint_number t).1 := by
  have hk : ∃ kmax, last_stint_key D1 = some kmax := by
    cases D1 with
    | nil => exact absurd rfl h1
    | cons e es => exact ⟨_, rfl⟩
  obtain ⟨kmax, hk⟩ := hk
  have hs' : stintAt D1 kmax = some s := by
    unfold get_last_stint at hlast
    rw [hk] at hlast
    exact hlast
  set R1 : DriverStints :=
    if s.lap_start = none
    then (update_stint_lap_start D1 s.stint_number nol).1
    else D1 with hR1
  set R2 : DriverStints := (update_stint_lap_end R1 s.stint_number nol).1
    with hR2
  set R3 : DriverStints := (update_stint_dsl R2 s.stint_number t).1 with hR3
  have hK1 : keysOf R1 = keysOf D1 := by
    rw [hR1]
    by_cases hg : s.lap_start = none
    · rw [if_pos hg]
      exact uls_keys D1 s.stint_number nol
    · rw [if_neg hg]
  have hK3 : keysOf R3 = keysOf D1 := by
    rw [hR3, uld_keys, hR2, ule_keys]
    exact hK1
  have hNE : R3 ≠ [] := ne_nil_of_keysOf_eq hK3 h1
  have hLK : last_stint_key R3 = some kmax := by
    unfold last_stint_key at hk ⊢
    rw [hK3]
    exact hk
  have hAtNe : ∀ k, k ≠ s.stint_number → stintAt R3 k = stintAt D1 k := by
    intro k hkne
    rw [hR3, uld_at_ne R2 t hkne, hR2, ule_at_ne R1 nol hkne, hR1]
    by_cases hg : s.lap_start = none
    · rw [if_pos hg]
      exact uls_at_ne D1 nol hkne
    · rw [if_neg hg]
  refine ⟨hNE, ?_⟩
  intro s0 hs0
  have hs0' : stintAt R3 kmax = some s0 := by
    unfold get_last_stint at hs0
    rw [hLK] at hs0
    exact hs0
  cases hu : stintAt D1 s.stint_number with
  | none =>
    have hR3D : R3 = D1 := by
      rw [hR3, hR2, hR1]
      by_cases hg : s.lap_start = none
      · rw [if_pos hg, uls_noop_none nol hu]
        dsimp only
        rw [ule_noop_none nol hu]
        dsimp only
        rw [uld_noop_none t hu]
      · rw [if_neg hg, ule_noop_none nol hu]
        dsimp only
        rw [uld_noop_none t hu]
    have hss : s0 = s := by
      rw [hR3D, hs'] at hs0'
      exact Option.some_inj.mp hs0'.symm
    have hat : stintAt R3 s.stint_number = none := by
      rw [hR3D]
      exact hu
    refine ⟨?_, ?_⟩
    · intro _ u2 hu2
      rw [hss, hat] at hu2
      exact Option.noConfusion hu2
    · intro u2 hu2
      rw [hss, hat] at hu2
      exact Option.noConfusion hu2
  | some u =>
    by_cases hg : s.lap_start = none
    · have hA1 : stintAt R1 s.stint_number =
          some { u with lap_start := some nol } := by
        rw [hR1, if_pos hg]
        exact uls_at_self nol hu
      have hA2 : stintAt R2 s.stint_number =
          some { u with lap_start := some nol, lap_end := some nol } := by
        rw [hR2]
        exact ule_at_self nol hA1
      have hA3 : stintAt R3 s.stint_number =
          some { u with lap_start := some nol, lap_end := some nol,
                        date_start_last_lap := some t } := by
        rw [hR3]
        exact uld_at_self t hA2
      by_cases hnnk : s.stint_number = kmax
      · have hus : u = s := by
          rw [hnnk] at hu
          exact Option.some_inj.mp (hu.symm.trans hs')
        rw [← hnnk] at hs0'
        have hs03 := Option.some_inj.mp (hs0'.symm.trans hA3)
        refine ⟨?_, ?_⟩
        · intro h0 u2 hu2
          rw [hs03] at h0
          exact Option.noConfusion h0
        · intro u2 hu2
          have hsn : s0.stint_number = s.stint_number := by
            rw [hs03, hus]
          rw [hsn, hA3] at hu2
          obtain rfl := Option.some_inj.mp hu2.symm
          exact ⟨rfl, rfl⟩
      · have hss : s0 = s := by
          rw [hAtNe kmax (fun hh => hnnk hh.symm), hs'] at hs0'
          exact Option.some_inj.mp hs0'.symm
        refine ⟨?_, ?_⟩
        · intro _ u2 hu2
          rw [hss, hA3] at hu2
          obtain rfl := Option.some_inj.mp hu2.symm
          exact rfl
        · intro u2 hu2
          rw [hss, hA3] at hu2
          obtain rfl := Option.some_inj.mp hu2.symm
          exact ⟨rfl, rfl⟩
    · have hA1 : stintAt R1 s.stint_number = some u := by
        rw [hR1, if_neg hg]
        exact hu
      have hA2 : stintAt R2 s.stint_number =
          some { u with lap_end := some nol } := by
        rw [hR2]
        exact ule_at_self nol hA1
      have hA3 : stintAt R3 s.stint_number =
          some { u with lap_end := some nol,
                        date_start_last_lap := some t } := by
        rw [hR3]
        exact uld_at_self t hA2
      by_cases hnnk : s.stint_number = kmax
      · have hus : u = s := by
          rw [hnnk] at hu
          exact Option.some_inj.mp (hu.symm.trans hs')
        rw [← hnnk] at hs0'
        have hs03 := Option.some_inj.mp (hs0'.symm.trans hA3)
        refine ⟨?_, ?_⟩
        · intro h0 u2 hu2
          have h0' : u.lap_start = none := by
            rw [hs03] at h0
            exact h0
          exact absurd (hus ▸ h0') hg
        · intro u2 hu2
          have hsn : s0.stint_number = s.stint_number := by
            rw [hs03, hus]
          rw [hsn, hA3] at hu2
          obtain rfl := Option.some_inj.mp hu2.symm
          exact ⟨rfl, rfl⟩
      · have hss : s0 = s := by
          rw [hAtNe kmax (fun hh => hnnk hh.symm), hs'] at hs0'
          exact Option.some_inj.mp hs0'.symm
        refine ⟨?_, ?_⟩
        · intro h0 u2 hu2
          rw [hss] at h0
          exact absurd h0 hg
        · intro u2 hu2
          rw [hss, hA3] at hu2
          obtain rfl := Option.some_inj.mp hu2.symm
          exact ⟨rfl, rfl⟩

/-- A `TimingData` line with a `NumberOfLaps` value establishes `TdDone`
on its driver's dict. -/
theorem td_line_post (mk sk t drv nol : Int) (st : SState) :
    TdDone nol t
      ((process_td_line mk sk t st (drv, some (some nol))).stints drv) := by
  have h1 : (if (st.stints drv).isEmpty
      then (add_stint mk sk drv 1 t (st.stints drv)).getD (st.stints drv)
      else st.stints drv) ≠ [] := ensure_nonempty mk sk drv t (st.stints drv)
  rcases get_last_stint_isSome h1 with ⟨s, hs⟩
  simp only [process_td_line]
  rw [hs]
  dsimp only
  rw [Function.update_same, fst_ite_pair]
  exact td_done_of_chain _ s nol t h1 hs

/-- Reprocessing a `TimingData` `NumberOfLaps` line from a state that
already satisfies `TdDone` is a strict no-op. -/
theorem td_apply_done {mk sk t drv nol : Int} {st2 : SState}
    (hd : TdDone nol t (st2.stints drv)) :
    process_td_line mk sk t st2 (drv, some (some nol)) = st2 := by
  rcases hd with ⟨hne, hcl⟩
  have hemp : (st2.stints drv).isEmpty = false := isEmpty_false_of_ne_nil hne
  simp only [process_td_line]
  rw [if_neg (show ¬ (st2.stints drv).isEmpty = true by
    rw [hemp]; exact Bool.false_ne_true)]
  rcases get_last_stint_isSome hne with ⟨s0, hs0⟩
  rw [hs0]
  dsimp only
  rcases hcl s0 hs0 with ⟨hcl1, hcl2⟩
  have hu2 : update_stint_lap_end (st2.stints drv) s0.stint_number nol
      = (st2.stints drv, false) := by
    cases hsn : stintAt (st2.stints drv) s0.stint_number with
    | none => exact ule_noop_none nol hsn
    | some u => exact ule_noop_eq hsn (hcl2 u hsn).1
  have hu3 : update_stint_dsl (st2.stints drv) s0.stint_number t
      = (st2.stints drv, false) := by
    cases hsn : stintAt (st2.stints drv) s0.stint_number with
    | none => exact uld_noop_none t hsn
    | some u => exact uld_noop_eq hsn (hcl2 u hsn).2
  have hr1 : (if s0.lap_start = none
      then ((update_stint_lap_start (st2.stints drv) s0.stint_number nol).1,
            if (update_stint_lap_start (st2.stints drv) s0.stint_number
                nol).2 = true then [s0.stint_number] else [])
      else (st2.stints drv, ([] : List Int)))
      = (st2.stints drv, []) := by
    by_cases hg : s0.lap_start = none
    · rw [if_pos hg]
      have hu1 : update_stint_lap_start (st2.stints drv) s0.stint_number nol
          = (st2.stints drv, false) := by
        cases hsn : stintAt (st2.stints drv) s0.stint_number with
        | none => exact uls_noop_none nol hsn
        | some u => exact uls_noop_eq hsn (hcl1 hg u hsn)
      rw [hu1]
      exact rfl
    · rw [if_neg hg]
  rw [hr1]
  dsimp only
  rw [hu2]
  dsimp only
  rw [hu3]
  dsimp only
  rw [Function.update_eq_self]
  exact rfl

/-- Reprocessing a `TimingData` line without a `NumberOfLaps` value from
a state whose driver dict is non-empty is a strict no-op. -/
theorem td_apply_nonempty_none {mk sk t drv : Int} {st2 : SState}
    (hne : st2.stints drv ≠ []) :
    process_td_line mk sk t st2 (drv, some none) = st2 := by
  have hemp : (st2.stints drv).isEmpty = false := isEmpty_false_of_ne_nil hne
  simp only [process_td_line]
  rw [if_neg (show ¬ (st2.stints drv).isEmpty = true by
    rw [hemp]; exact Bool.false_ne_true)]
  rw [Function.update_eq_self]

/-- A `TimingData` line leaves its driver's dict non-empty. -/
theorem td_line_post_none (mk sk t drv : Int) (st : SState) :
    (process_td_line mk sk t st (drv, some none)).stints drv ≠ [] := by
  simp only [process_td_line]
  rw [Function.update_same]
  exact ensure_nonempty mk sk drv t (st.stints drv)

/-- A `TimingData` line leaves the dicts of the other drivers
untouched. -/
theorem td_line_stints_other (mk sk t drv d : Int)
    (l : Option (Option Int)) (st : SState) (hne : d ≠ drv) :
    (process_td_line mk sk t st (drv, l)).stints d = st.stints d := by
  cases l with
  | none => rfl
  | some nolq =>
    simp only [process_td_line]
    cases nolq with
    | none => exact Function.update_noteq hne _ _
    | some nol =>
      cases hg : get_last_stint (if (st.stints drv).isEmpty
          then (add_stint mk sk drv 1 t (st.stints drv)).getD (st.stints drv)
          else st.stints drv) with
      | none => exact Function.update_noteq hne _ _
      | some s => exact Function.update_noteq hne _ _

/-- The `TimingData` line fold leaves the dicts of unmentioned drivers
untouched. -/
theorem td_fold_stints_other (mk sk t d : Int)
    (ls : List (Int × Option (Option Int))) (st : SState)
    (hd : d ∉ ls.map Prod.fst) :
    (ls.foldl (fun s l => process_td_line mk sk t s l) st).stints d
      = st.stints d := by
  induction ls generalizing st with
  | nil => rfl
  | cons p ls ih =>
    obtain ⟨drv, l⟩ := p
    have hne : d ≠ drv := fun hh => hd (by simp [hh])
    have hd2 : d ∉ ls.map Prod.fst := fun hh => hd (by simp [hh])
    rw [List.foldl_cons]
    exact (ih _ hd2).trans (td_line_stints_other mk sk t drv d l st hne)

/-- A `TimingData` line pass is replayed as a strict no-op from any
state that agrees with the final state on the drivers of the lines. -/
theorem td_fold_pass2 (mk sk t : Int)
    (ls : List (Int × Option (Option Int))) (st0 stF : SState)
    (hnd : (ls.map Prod.fst).Nodup)
    (hag : ∀ p ∈ ls, stF.stints p.1 =
      (ls.foldl (fun s l => process_td_line mk sk t s l) st0).stints p.1) :
    ls.foldl (fun s l => process_td_line mk sk t s l) stF = stF := by
  induction ls generalizing st0 with
  | nil => rfl
  | cons p ls ih =>
    obtain ⟨drv, l⟩ := p
    have hndc : (drv :: ls.map Prod.fst).Nodup := by
      simpa only [List.map_cons] using hnd
    rcases List.nodup_cons.mp hndc with ⟨hdrv, hnd2⟩
    have hagh : stF.stints drv =
        (process_td_line mk sk t st0 (drv, l)).stints drv := by
      have h0 := hag (drv, l) (List.mem_cons_self _ _)
      rw [List.foldl_cons,
        td_fold_stints_other mk sk t drv ls _ hdrv] at h0
      exact h0
    have hline : process_td_line mk sk t stF (drv, l) = stF := by
      cases l with
      | none => rfl
      | some nolq =>
        cases nolq with
        | none =>
          apply td_apply_nonempty_none
          rw [hagh]
          exact td_line_post_none mk sk t drv st0
        | some nol =>
          apply td_apply_done
          rw [hagh]
          exact td_line_post mk sk t drv nol st0
    rw [List.foldl_cons, hline]
    exact ih (process_td_line mk sk t st0 (drv, l)) hnd2
      (fun p2 hp2 => by
        have h0 := hag p2 (List.mem_cons_of_mem _ hp2)
        rw [List.foldl_cons] at h0
        exact h0)

/-- C8 (amended): because the collection instances are cached and
stateful, reprocessing is only idempotent at the state level, and only
for well-keyed messages: when the driver keys and each line's parsed
stint numbers are distinct (`msgNodup` — true for dict-shaped `Stints`
with distinct numeric keys, false for list-shaped `Stints` with two or
more entries, which all collapse onto stint number 1), a message
processed without a raise is replayed from the resulting persistent
state as a strict no-op — the state is unchanged and no documents are
emitted.  Outside that scope the replay need not be a no-op: the
counterexample's second part shows a two-entry list-shaped `Stints`
whose replay emits a document again. -/
theorem c8_reprocessing_state_idempotent (mk sk : Int) (st : SState)
    (m : SMsg) (hnd : msgNodup m)
    (hok : (process_message_stints mk sk st m).2.2 = true) :
    process_message_stints mk sk (process_message_stints mk sk st m).1 m =
      ((process_message_stints mk sk st m).1, [], true) := by
  cases m with
  | ta t lines =>
    rcases hnd with ⟨hnd1, hnd2⟩
    cases hgo : go_ta_lines mk sk t st lines with
    | mk st1 flag =>
      cases flag with
      | false =>
        simp only [process_message_stints] at hok
        rw [hgo] at hok
        have hc : false = true := hok
        exact Bool.noConfusion hc
      | true =>
        have hres : process_message_stints mk sk st (SMsg.ta t lines) =
            ({ st1 with updated := [] }, emit_docs st1, true) := by
          simp only [process_message_stints]
          rw [hgo]
        rw [hres]
        have hpass2 : go_ta_lines mk sk t
            ({ st1 with updated := ([] : List (Int × Int)) }) lines
            = ({ st1 with updated := [] }, true) :=
          ta_lines_pass2 hnd1 hnd2 hgo (fun p hp => rfl)
        simp only [process_message_stints]
        rw [hpass2]
        exact rfl
  | td t linesq =>
    cases linesq with
    | none => rfl
    | some lines =>
      have hres : process_message_stints mk sk st (SMsg.td t (some lines)) =
          (SState.mk
            (lines.foldl (fun s l => process_td_line mk sk t s l) st).stints
            [],
           emit_docs
            (lines.foldl (fun s l => process_td_line mk sk t s l) st),
           true) := rfl
      rw [hres]
      have hfold := td_fold_pass2 mk sk t lines st
        (SState.mk
          (lines.foldl (fun s l => process_td_line mk sk t s l) st).stints
          [])
        hnd (fun p hp => rfl)
      simp only [process_message_stints]
      rw [hfold]
      exact rfl

/-- Witness for C8: the concrete `TimingAppData` message of the
counterexample satisfies the well-formedness hypotheses, its first run
succeeds, and its replay is a strict no-op. -/
theorem c8_reprocessing_state_idempotent_witness :
    msgNodup c8msg ∧
    (process_message_stints 1219 9161 initStintsState c8msg).2.2 = true ∧
    process_message_stints 1219 9161
        (process_message_stints 1219 9161 initStintsState c8msg).1 c8msg =
      ((process_message_stints 1219 9161 initStintsState c8msg).1, [],
       true) := by
  have hnodup : msgNodup c8msg := by
    refine ⟨by decide, ?_⟩
    intro p hp shape hsh
    rw [List.mem_singleton] at hp
    subst hp
    obtain rfl : StintsShape.sdict [("0", some { compound := some "SOFT" })]
        = shape := Option.some_inj.mp hsh
    decide
  exact ⟨hnodup, by decide,
    c8_reprocessing_state_idempotent 1219 9161 initStintsState c8msg
      hnodup (by decide)⟩

theorem procResult_fst {σ δ μ : Type} {m : μ} {p : Proc σ δ μ}
    {b : String × List δ} (h : procResult m p = some b) :
    b.1 = p.name := by
  unfold procResult at h
  cases hs : (p.step p.st m).2 with
  | none =>
    rw [hs] at h
    exact Option.noConfusion h
  | some docs =>
    rw [hs] at h
    dsimp only at h
    by_cases hd : docs.isEmpty = true
    · rw [if_pos hd] at h
      exact Option.noConfusion h
    · rw [if_neg hd] at h
      rw [← Option.some_inj.mp h]

/-- The `c`-named entries of one driver pass do not depend on the
processor at one position, as long as it is not named `c`. -/
theorem driver_filter_append {σ δ μ : Type} (c : String) (m : μ)
    (pre : List (Proc σ δ μ)) (p q : Proc σ δ μ)
    (post : List (Proc σ δ μ)) (hp : p.name ≠ c) (hq : q.name ≠ c) :
    List.filterMap (fun e => if e.1 = c then some e.2 else none)
        (List.filterMap (procResult m) (pre ++ p :: post)) =
    List.filterMap (fun e => if e.1 = c then some e.2 else none)
        (List.filterMap (procResult m) (pre ++ q :: post)) := by
  induction pre with
  | nil =>
    cases hgp : procResult m p with
    | none =>
      cases hgq : procResult m q with
      | none => simp only [List.nil_append, List.filterMap_cons, hgp, hgq]
      | some b =>
        have hb : ¬ b.1 = c := by
          rw [procResult_fst hgq]
          exact hq
        simp only [List.nil_append, List.filterMap_cons, hgp, hgq,
          if_neg hb]
    | some b =>
      have hb : ¬ b.1 = c := by
        rw [procResult_fst hgp]
        exact hp
      cases hgq : procResult m q with
      | none =>
        simp only [List.nil_append, List.filterMap_cons, hgp, hgq,
          if_neg hb]
      | some b2 =>
        have hb2 : ¬ b2.1 = c := by
          rw [procResult_fst hgq]
          exact hq
        simp only [List.nil_append, List.filterMap_cons, hgp, hgq,
          if_neg hb, if_neg hb2]
  | cons r pre ih =>
    cases hgr : procResult m r with
    | none =>
      simpa only [List.cons_append, List.filterMap_cons, hgr] using ih
    | some b =>
      by_cases hbc : b.1 = c
      · simp only [List.cons_append, List.filterMap_cons, hgr, if_pos hbc]
        exact congrArg (List.cons b.2) ih
      · simp only [List.cons_append, List.filterMap_cons, hgr, if_neg hbc]
        exact ih

theorem driver_states_append {σ δ μ : Type} (m : μ)
    (pre post : List (Proc σ δ μ)) (p : Proc σ δ μ) :
    (process_message_driver (pre ++ p :: post) m).1 =
      (pre.map fun r => { r with st := (r.step r.st m).1 }) ++
        ({ p with st := (p.step p.st m).1 }) ::
        (post.map fun r => { r with st := (r.step r.st m).1 }) := by
  simp only [process_message_driver, List.map_append, List.map_cons]

/-- C9: one processor raising (or behaving arbitrarily) never changes
what the other collections receive.  Replace the processor at one
position by any processor whose name is also not `c` — in particular a
raising processor by one that emits nothing — and the documents
collection `c` receives, for this message and every later one, are
identical. -/
theorem c9_failing_processor_does_not_affect_others {σ δ μ : Type}
    (c : String) (msgs : List μ) (pre post : List (Proc σ δ μ))
    (p q : Proc σ δ μ) (hp : p.name ≠ c) (hq : q.name ≠ c) :
    resultsFor c (runMessages (pre ++ p :: post) msgs).2 =
      resultsFor c (runMessages (pre ++ q :: post) msgs).2 := by
  induction msgs generalizing pre post p q with
  | nil => rfl
  | cons m ms ih =>
    have hhead := driver_filter_append c m pre p q post hp hq
    have htail : resultsFor c
        (runMessages (process_message_driver (pre ++ p :: post) m).1
          ms).2 =
        resultsFor c
        (runMessages (process_message_driver (pre ++ q :: post) m).1
          ms).2 := by
      rw [driver_states_append m pre post p,
        driver_states_append m pre post q]
      exact ih _ _ _ _ hp hq
    simp only [runMessages, resultsFor, List.map_cons,
      process_message_driver]
    exact congrArg₂ List.cons hhead htail

/-- Witness for C9: with a concrete laps processor running next to a
stints processor that raises on every message, the laps documents equal
those obtained when the raising processor is replaced by a silent
one. -/
theorem c9_failing_processor_does_not_affect_others_witness :
    c9ProcFail.name ≠ "laps" ∧ c9ProcSilent.name ≠ "laps" ∧
    resultsFor "laps"
        (runMessages [c9ProcLaps, c9ProcFail] [7, 8]).2 =
      resultsFor "laps"
        (runMessages [c9ProcLaps, c9ProcSilent] [7, 8]).2 :=
  ⟨by decide, by decide,
    c9_failing_processor_does_not_affect_others "laps" [7, 8]
      [c9ProcLaps] [] c9ProcFail c9ProcSilent (by decide) (by decide)⟩

end OpenF1

